import Mathlib

/-!
Charging-speed SoC estimator (`core/soc/speedestimator.go`).

A shallow embedding of the `SpeedEstimator` of the repository and the
properties of its session state.

Modelling conventions.

* `time.Time` is an integer count of nanoseconds since the zero instant
  `time.Time{}`, unbounded.  `time.Duration` is an integer count of
  nanoseconds; the durations of the program are the integers from `minDuration`
  to `maxDuration` (`int64`).  `Time.Sub` saturates at these bounds as Go's
  `Sub` does, and `Duration.neg`, the unary minus of the source, wraps around at
  `minDuration`.
* The clock is an input: every operation that reads `se.clock.Now()` takes the
  reading as an argument.  `UpdatePowerAt` takes the two readings of one call of
  `UpdatePower`; `UpdatePower` is the call under a clock that returns the same
  instant for both, as the mock clock of the tests does.
* `float64` readings and settings (`power`, `maxPower`, `ReductionThreshold`,
  `MinPowerForEstimation`, the `Power` of a measurement) are finite and are
  modelled by rationals.  The division by `maxPower` leaves the finite range on
  finite operands, so everything computed from `powerReduction` (including the
  field `estimatedSoc`) lives in `F64`, the rationals extended by the IEEE-754
  values `+Inf`, `-Inf` and `NaN`.
* Rounding.  The threshold of `hasStablePowerReduction`, the product
  `maxPower * (1 - ReductionThreshold)`, is rounded to `float64` as IEEE-754
  prescribes (`F64.round64`): readings are compared with the rounded product.
  The quotient `(maxPower - currentPower) / maxPower` and the estimate computed
  from it are kept exact; the `estimatedSoc` that the program stores is that
  value up to the rounding of its `float64` operations.
* The mutex and the logger have no effect on the session state and are left
  out.
-/

namespace Soc

/-! ## Time -/

/-- Instant, in nanoseconds since the zero instant `time.Time{}`. -/
abbrev Time := Int

/-- Span of time in nanoseconds (`time.Duration`). -/
abbrev Duration := Int

/-- One second, `time.Second`. -/
def Second : Duration := 1000000000

/-- One minute, `time.Minute`. -/
def Minute : Duration := 60 * Second

/-- One hour, `time.Hour`. -/
def Hour : Duration := 60 * Minute

/-- Go's `t.IsZero()`: the instant is the zero value of `time.Time`. -/
def Time.IsZero (t : Time) : Bool := t == 0

/-- Least value of a `time.Duration`: `math.MinInt64` nanoseconds. -/
def minDuration : Duration := -9223372036854775808

/-- Greatest value of a `time.Duration`: `math.MaxInt64` nanoseconds. -/
def maxDuration : Duration := 9223372036854775807

/-- Go's `t.Sub(u)`: the span `t - u`, replaced by the least or the greatest
`time.Duration` when it does not fit one. -/
def Time.Sub (t u : Time) : Duration := max minDuration (min maxDuration (t - u))

/-- Go's unary minus on a `time.Duration`: the negation of an `int64`, which
wraps around at `math.MinInt64` and returns it unchanged. -/
def Duration.neg (d : Duration) : Duration := if d = minDuration then minDuration else -d

/-- Go's `t.Add(d)`: the instant `t + d`. -/
def Time.Add (t : Time) (d : Duration) : Time := t + d

/-- Go's `t.After(u)`: `t` is strictly later than `u`. -/
def Time.After (t u : Time) : Bool := decide (u < t)

/-! ## Floating-point results -/

/-- Value of a `float64` computation: a finite number or an IEEE special. -/
inductive F64 where
  | fin (q : ℚ)
  | posInf
  | negInf
  | nan
  deriving DecidableEq

namespace F64

/-- Sign of a rational as an infinity: used for `x/0` and `x*Inf` with `x ≠ 0`. -/
def infOfSign (a : ℚ) : F64 := if 0 < a then posInf else negInf

/-- IEEE-754 division `x / y`. -/
def div : F64 → F64 → F64
  | nan, _ => nan
  | _, nan => nan
  | fin a, fin b => if b = 0 then (if a = 0 then nan else infOfSign a) else fin (a / b)
  | fin _, posInf => fin 0
  | fin _, negInf => fin 0
  | posInf, fin b => if 0 ≤ b then posInf else negInf
  | negInf, fin b => if 0 ≤ b then negInf else posInf
  | posInf, posInf => nan
  | posInf, negInf => nan
  | negInf, posInf => nan
  | negInf, negInf => nan

/-- IEEE-754 multiplication `x * y`. -/
def mul : F64 → F64 → F64
  | nan, _ => nan
  | _, nan => nan
  | fin a, fin b => fin (a * b)
  | fin a, posInf => if a = 0 then nan else infOfSign a
  | fin a, negInf => if a = 0 then nan else infOfSign (-a)
  | posInf, fin b => if b = 0 then nan else infOfSign b
  | negInf, fin b => if b = 0 then nan else infOfSign (-b)
  | posInf, posInf => posInf
  | posInf, negInf => negInf
  | negInf, posInf => negInf
  | negInf, negInf => posInf

/-- IEEE-754 addition `x + y`. -/
def add : F64 → F64 → F64
  | nan, _ => nan
  | _, nan => nan
  | fin a, fin b => fin (a + b)
  | fin _, posInf => posInf
  | fin _, negInf => negInf
  | posInf, fin _ => posInf
  | negInf, fin _ => negInf
  | posInf, posInf => posInf
  | posInf, negInf => nan
  | negInf, posInf => nan
  | negInf, negInf => negInf

/-- The comparison `x < y` of Go: false as soon as an operand is `NaN`. -/
def lt : F64 → F64 → Bool
  | nan, _ => false
  | _, nan => false
  | fin a, fin b => decide (a < b)
  | fin _, posInf => true
  | fin _, negInf => false
  | posInf, _ => false
  | negInf, fin _ => true
  | negInf, posInf => true
  | negInf, negInf => false

/-- The comparison `x >= y` of Go: false as soon as an operand is `NaN`. -/
def ge : F64 → F64 → Bool
  | nan, _ => false
  | _, nan => false
  | fin a, fin b => decide (b ≤ a)
  | fin _, posInf => false
  | fin _, negInf => true
  | posInf, _ => true
  | negInf, fin _ => false
  | negInf, posInf => false
  | negInf, negInf => true

/-- Go's `math.Min(x, y)`: `-Inf` wins, then `NaN`, then the smaller operand. -/
def min : F64 → F64 → F64
  | negInf, _ => negInf
  | _, negInf => negInf
  | nan, _ => nan
  | _, nan => nan
  | fin a, fin b => if a < b then fin a else fin b
  | fin a, posInf => fin a
  | posInf, fin b => fin b
  | posInf, posInf => posInf

/-- Go's `math.Max(x, y)`: `+Inf` wins, then `NaN`, then the larger operand. -/
def max : F64 → F64 → F64
  | posInf, _ => posInf
  | _, posInf => posInf
  | nan, _ => nan
  | _, nan => nan
  | fin a, fin b => if a > b then fin a else fin b
  | fin a, negInf => fin a
  | negInf, fin b => fin b
  | negInf, negInf => negInf

/-- The comparison `x > y` of Go: false as soon as an operand is `NaN`. -/
def gt (x y : F64) : Bool := lt y x

/-- IEEE-754 negation `-x`. -/
def neg : F64 → F64
  | fin a => fin (-a)
  | posInf => negInf
  | negInf => posInf
  | nan => nan

/-- IEEE-754 subtraction `x - y`, before rounding. -/
def sub (x y : F64) : F64 := add x (neg y)

/-- The power `2 ^ u` as a rational. -/
def pow2 (u : Int) : ℚ :=
  if 0 ≤ u then ((2 ^ u.toNat : Nat) : ℚ) else 1 / ((2 ^ (-u).toNat : Nat) : ℚ)

/-- Rounding of a non-negative rational to the nearest integer, ties to even. -/
def roundHalfEven (q : ℚ) : Int :=
  let f : Int := q.num / (q.den : Int)
  let r : ℚ := q - f
  if r < 1 / 2 then f
  else if 1 / 2 < r then f + 1
  else if f % 2 = 0 then f
  else f + 1

/-- Number of halvings that bring `n` below 2, at most `fuel` of them. -/
def log2Fuel : Nat → Nat → Nat
  | 0, _ => 0
  | fuel + 1, n => if n < 2 then 0 else log2Fuel fuel (n / 2) + 1

/-- Binary logarithm of a natural number, rounded down (0 for 0). -/
def log2 (n : Nat) : Nat := log2Fuel n n

/-- Binary exponent `e` of a positive rational: `2 ^ e ≤ a < 2 ^ (e + 1)`. -/
def exponent (a : ℚ) : Int :=
  let e0 : Int := (log2 a.num.natAbs : Int) - (log2 a.den : Int)
  if pow2 e0 ≤ a then e0 else e0 - 1

/-- Magnitude of the `float64` nearest to a positive rational: round to nearest,
ties to even, with a significand of 53 bits and a least unit of `2 ^ (-1074)`. -/
def roundMagnitude (a : ℚ) : ℚ :=
  let u : Int := Max.max (exponent a - 52) (-1074)
  (roundHalfEven (a / pow2 u) : ℚ) * pow2 u

/-- IEEE-754 rounding of an exact finite result to `float64`; a magnitude that
rounds to `2 ^ 1024` or more overflows to an infinity. -/
def round64 (q : ℚ) : F64 :=
  if q = 0 then fin 0
  else if 0 < q then
    (if pow2 1024 ≤ roundMagnitude q then posInf else fin (roundMagnitude q))
  else
    (if pow2 1024 ≤ roundMagnitude (-q) then negInf else fin (-roundMagnitude (-q)))

/-- Rounding of the result of a `float64` operation: finite results are rounded,
infinities and `NaN` are kept. -/
def round : F64 → F64
  | fin q => round64 q
  | x => x

/-- The value lies in the closed interval `[lo, hi]`: `lo <= x && x <= hi`. -/
def inRange (lo hi : ℚ) (x : F64) : Bool := ge x (fin lo) && ge (fin hi) x

end F64

/-! ## Data model -/

/-- A single power measurement with its timestamp (`PowerMeasurement`). -/
structure PowerMeasurement where
  Timestamp : Time
  Power : ℚ
  deriving DecidableEq

/-- Configuration of the estimator (`ChargingSpeedConfig`). -/
structure ChargingSpeedConfig where
  Enabled : Bool
  TargetSoc : Int
  MaxPowerWindow : Duration
  ReductionThreshold : ℚ
  MinChargingTime : Duration
  SampleInterval : Duration
  HistoryRetention : Duration
  StabilityWindow : Duration
  MinPowerForEstimation : ℚ
  deriving DecidableEq

/-- The estimator: its configuration and the session state (`SpeedEstimator`). -/
structure SpeedEstimator where
  config : ChargingSpeedConfig
  powerHistory : List PowerMeasurement
  maxPower : ℚ
  maxPowerTime : Time
  chargingStarted : Time
  estimationActive : Bool
  estimatedSoc : F64
  targetReached : Bool
  lastSample : Time
  deriving DecidableEq

/-- The default configuration, `DefaultChargingSpeedConfig()`. -/
def DefaultChargingSpeedConfig : ChargingSpeedConfig :=
  { Enabled := false
    TargetSoc := 80
    MaxPowerWindow := 10 * Minute
    ReductionThreshold := 15 / 100
    MinChargingTime := 15 * Minute
    SampleInterval := 30 * Second
    HistoryRetention := 2 * Hour
    StabilityWindow := 5 * Minute
    MinPowerForEstimation := 1000 }

/-- Constructor `NewSpeedEstimator`: an unset sample interval selects the
defaults; every state field starts at its zero value. -/
def NewSpeedEstimator (config : ChargingSpeedConfig) : SpeedEstimator :=
  let config := if config.SampleInterval = 0 then DefaultChargingSpeedConfig else config
  { config := config
    powerHistory := []
    maxPower := 0
    maxPowerTime := 0
    chargingStarted := 0
    estimationActive := false
    estimatedSoc := F64.fin 0
    targetReached := false
    lastSample := 0 }

/-! ## Operations -/

/-- Method `StartCharging`, with `now` the clock reading. -/
def StartCharging (se : SpeedEstimator) (now : Time) : SpeedEstimator :=
  { se with
    chargingStarted := now
    powerHistory := []
    maxPower := 0
    maxPowerTime := 0
    estimationActive := false
    estimatedSoc := F64.fin 0
    targetReached := false
    lastSample := 0 }

/-- Method `StopCharging`. -/
def StopCharging (se : SpeedEstimator) : SpeedEstimator :=
  { se with estimationActive := false, targetReached := false }

/-- Method `cleanOldMeasurements`, with `clockNow` the clock reading it takes. -/
def cleanOldMeasurements (se : SpeedEstimator) (clockNow : Time) : SpeedEstimator :=
  let cutoff := Time.Add clockNow (Duration.neg se.config.HistoryRetention)
  { se with powerHistory := se.powerHistory.filter (fun m => Time.After m.Timestamp cutoff) }

/-- The threshold of `hasStablePowerReduction`: the `float64` product
`se.maxPower * (1 - se.config.ReductionThreshold)`, the difference and the
product each rounded. -/
def stabilityThreshold (se : SpeedEstimator) : F64 :=
  F64.round (F64.mul (F64.fin se.maxPower)
    (F64.round (F64.sub (F64.fin 1) (F64.fin se.config.ReductionThreshold))))

/-- Method `hasStablePowerReduction`; the second argument is ignored by the source. -/
def hasStablePowerReduction (se : SpeedEstimator) (now : Time) (_currentPower : ℚ) : Bool :=
  let stabilityStart := Time.Add now (Duration.neg se.config.StabilityWindow)
  let recentMeasurements := se.powerHistory.filter (fun m => Time.After m.Timestamp stabilityStart)
  if recentMeasurements.length < 3 then false
  else
    let threshold := stabilityThreshold se
    recentMeasurements.all (fun m => !F64.gt (F64.fin m.Power) threshold)

/-- The quotient `(se.maxPower - currentPower) / se.maxPower` of the source. -/
def powerReduction (se : SpeedEstimator) (currentPower : ℚ) : F64 :=
  F64.div (F64.fin (se.maxPower - currentPower)) (F64.fin se.maxPower)

/-- Method `canStartEstimation`. -/
def canStartEstimation (se : SpeedEstimator) (now : Time) (currentPower : ℚ) : Bool :=
  if Time.Sub now se.chargingStarted < se.config.MinChargingTime then false
  else if se.maxPower < se.config.MinPowerForEstimation then false
  else if F64.lt (powerReduction se currentPower) (F64.fin se.config.ReductionThreshold) then false
  else hasStablePowerReduction se now currentPower

/-- The estimate computed by `updateSocEstimation` before it is stored. -/
def socEstimate (se : SpeedEstimator) (currentPower : ℚ) : F64 :=
  let socIncrease := F64.mul (powerReduction se currentPower) (F64.fin 30)
  let baseSoc : ℚ := (se.config.TargetSoc : ℚ) - 10
  F64.max (F64.fin 0) (F64.min (F64.fin 100) (F64.add (F64.fin baseSoc) socIncrease))

/-- Method `updateSocEstimation`. -/
def updateSocEstimation (se : SpeedEstimator) (currentPower : ℚ) : SpeedEstimator :=
  let se := { se with estimatedSoc := socEstimate se currentPower }
  if F64.ge se.estimatedSoc (F64.fin (se.config.TargetSoc : ℚ)) && !se.targetReached then
    { se with targetReached := true }
  else se

/-- The sample passes the rate limit of `UpdatePower`. -/
def sampleAccepted (se : SpeedEstimator) (now : Time) : Bool :=
  !(!Time.IsZero se.lastSample && decide (Time.Sub now se.lastSample < se.config.SampleInterval))

/-- Max-power step of `UpdatePower`. -/
def updateMaxPower (se : SpeedEstimator) (power : ℚ) (now : Time) : SpeedEstimator :=
  if decide (power > se.maxPower) &&
      (Time.IsZero se.maxPowerTime ||
        decide (Time.Sub now se.chargingStarted ≤ se.config.MaxPowerWindow)) then
    { se with maxPower := power, maxPowerTime := now }
  else se

/-- Activation step of `UpdatePower`. -/
def activate (se : SpeedEstimator) (power : ℚ) (now : Time) : SpeedEstimator :=
  if !se.estimationActive && canStartEstimation se now power then
    { se with estimationActive := true }
  else se

/-- Method `UpdatePower` with its two clock readings: `now` at the top of the
method and `cleanNow` inside `cleanOldMeasurements`. -/
def UpdatePowerAt (se : SpeedEstimator) (power : ℚ) (now cleanNow : Time) : SpeedEstimator :=
  if !se.config.Enabled then se
  else if !sampleAccepted se now then se
  else
    let se := { se with lastSample := now }
    let se := { se with powerHistory := se.powerHistory ++ [⟨now, power⟩] }
    let se := cleanOldMeasurements se cleanNow
    let se := updateMaxPower se power now
    let se := activate se power now
    if se.estimationActive then updateSocEstimation se power else se

/-- Method `UpdatePower` called at the instant `now`: both clock readings of the
call return `now`, as with the mock clock of the tests. -/
def UpdatePower (se : SpeedEstimator) (power : ℚ) (now : Time) : SpeedEstimator :=
  UpdatePowerAt se power now now

/-- A call on the estimator, with the clock reading it sees. -/
inductive Op where
  | start (now : Time)
  | stop
  | update (power : ℚ) (now : Time)

/-- Effect of one call on the estimator. -/
def step (se : SpeedEstimator) : Op → SpeedEstimator
  | Op.start now => StartCharging se now
  | Op.stop => StopCharging se
  | Op.update power now => UpdatePower se power now

/-- Effect of a sequence of calls, first call first. -/
def run (se : SpeedEstimator) (ops : List Op) : SpeedEstimator :=
  ops.foldl step se

/-- State of an accepted `UpdatePower` right after its max-power step: the
sample is recorded, the history pruned and the maximum revised. -/
def afterMaxPower (se : SpeedEstimator) (power : ℚ) (now : Time) : SpeedEstimator :=
  updateMaxPower
    (cleanOldMeasurements
      { se with lastSample := now, powerHistory := se.powerHistory ++ [⟨now, power⟩] } now)
    power now

/-- The rational clamp to `[0, 100]`. -/
def clampPercent (x : ℚ) : ℚ := max 0 (min 100 x)

/-- Invariant of a session with a positive `minPowerForEstimation`: the estimate
is in `[0, 100]` and an active estimation has a maximum of at least the minimum. -/
def RangeInv (se : SpeedEstimator) : Prop :=
  F64.inRange 0 100 se.estimatedSoc = true ∧
    (se.estimationActive = true → se.config.MinPowerForEstimation ≤ se.maxPower)

/-! ## Sessions of the test-suite -/

/-- Reading of the mock clock when a test starts: the Unix epoch. -/
def mockStart : Time := 62135596800 * Second

/-- Configuration of `TestSpeedEstimator_SocEstimation`. -/
def socTestConfig : ChargingSpeedConfig :=
  { DefaultChargingSpeedConfig with
    Enabled := true
    SampleInterval := 1 * Second
    MinChargingTime := 1 * Minute
    ReductionThreshold := 15 / 100
    MinPowerForEstimation := 1000
    StabilityWindow := 1 * Minute
    TargetSoc := 80 }

/-- Calls of `TestSpeedEstimator_SocEstimation` up to the five readings of 4000 W. -/
def socTestOps : List Op :=
  [ Op.start mockStart,
    Op.update 5000 mockStart,
    Op.update 4000 (mockStart + 2 * Minute),
    Op.update 4000 (mockStart + 2 * Minute + 20 * Second),
    Op.update 4000 (mockStart + 2 * Minute + 40 * Second),
    Op.update 4000 (mockStart + 2 * Minute + 60 * Second),
    Op.update 4000 (mockStart + 2 * Minute + 80 * Second) ]

/-- Estimator of `TestSpeedEstimator_SocEstimation` after the readings of 4000 W. -/
def socTestState : SpeedEstimator := run (NewSpeedEstimator socTestConfig) socTestOps

/-- Estimator of `TestSpeedEstimator_SocEstimation` after the reading of 3000 W,
where the target is reached. -/
def socTestReached : SpeedEstimator :=
  UpdatePower (UpdatePower socTestState 3500 (mockStart + 2 * Minute + 101 * Second)) 3000
    (mockStart + 2 * Minute + 102 * Second)

/-- Configuration of `TestSpeedEstimator_MaxPowerTracking`. -/
def maxPowerTestConfig : ChargingSpeedConfig :=
  { DefaultChargingSpeedConfig with
    Enabled := true
    SampleInterval := 1 * Second
    MaxPowerWindow := 10 * Minute }

/-- Estimator of `TestSpeedEstimator_MaxPowerTracking` after the readings of
3000 W, 5000 W and 4000 W. -/
def maxPowerTestState : SpeedEstimator :=
  run (NewSpeedEstimator maxPowerTestConfig)
    [ Op.start mockStart,
      Op.update 3000 mockStart,
      Op.update 5000 (mockStart + 2 * Second),
      Op.update 4000 (mockStart + 4 * Second) ]

/-- Configuration of `TestSpeedEstimator_UpdatePowerSampling`. -/
def samplingTestConfig : ChargingSpeedConfig :=
  { DefaultChargingSpeedConfig with Enabled := true, SampleInterval := 30 * Second }

/-- Configuration of `TestSpeedEstimator_HistoryCleanup`. -/
def cleanupTestConfig : ChargingSpeedConfig :=
  { DefaultChargingSpeedConfig with
    Enabled := true
    SampleInterval := 1 * Second
    HistoryRetention := 10 * Minute }

/-- Estimator of `TestSpeedEstimator_HistoryCleanup` after its first two readings. -/
def cleanupTestState : SpeedEstimator :=
  run (NewSpeedEstimator cleanupTestConfig)
    [ Op.start mockStart,
      Op.update 5000 mockStart,
      Op.update 5000 (mockStart + 1 * Minute) ]

/-- The default configuration, enabled, with `minPowerForEstimation` set to 0. -/
def zeroMinPowerConfig : ChargingSpeedConfig :=
  { DefaultChargingSpeedConfig with Enabled := true, MinPowerForEstimation := 0 }

/-- A session in which the vehicle draws no power: readings of 0 W taken 15 min
and 15 min 30 s after `StartCharging`. -/
def zeroPowerState : SpeedEstimator :=
  run (NewSpeedEstimator zeroMinPowerConfig)
    [ Op.start mockStart,
      Op.update 0 (mockStart + 15 * Minute),
      Op.update 0 (mockStart + 15 * Minute + 30 * Second) ]

/-- An active estimation has seen a maximum of at least `minPowerForEstimation`. -/
def ActiveInv (se : SpeedEstimator) : Prop :=
  se.estimationActive = true → se.config.MinPowerForEstimation ≤ se.maxPower

/-- The call `canStartEstimation(now, _)` gets past its first two checks and so
computes the quotient `(maxPower - currentPower) / maxPower`. -/
def computesPowerReduction (se : SpeedEstimator) (now : Time) : Bool :=
  !decide (Time.Sub now se.chargingStarted < se.config.MinChargingTime) &&
    !decide (se.maxPower < se.config.MinPowerForEstimation)

/-- The clock reading of an `UpdatePower` call is not the zero instant. -/
def readingSet : Op → Bool
  | Op.update _ now => !Time.IsZero now
  | _ => true

/-- Spacing of the history by `d`: every entry is at least `d` before every
later entry, and `lastSample` is set and not before any entry. -/
def SpacedInv (d : Duration) (se : SpeedEstimator) : Prop :=
  se.powerHistory.Pairwise (fun a b => a.Timestamp + d ≤ b.Timestamp) ∧
    ∀ m ∈ se.powerHistory, Time.IsZero se.lastSample = false ∧ m.Timestamp ≤ se.lastSample

/-- Consecutive accepted samples of the calls `(power, now)` made from `se` are
at least `d` apart; `prev` is the time of the last accepted sample, if any. -/
def spacedFrom (d : Duration) : SpeedEstimator → Option Time → List (ℚ × Time) → Bool
  | _, _, [] => true
  | se, prev, c :: rest =>
    if se.config.Enabled && sampleAccepted se c.2 then
      (match prev with
        | some a => decide (a + d ≤ c.2)
        | none => true) &&
        spacedFrom d (UpdatePower se c.1 c.2) (some c.2) rest
    else spacedFrom d se prev rest

/-- History of a session whose accepted samples are `d` apart: entries are `d`
apart and lie in the retention window that ends at the last accepted sample. -/
def WindowInv (d : Duration) (se : SpeedEstimator) (prev : Option Time) : Prop :=
  se.powerHistory.Pairwise (fun a b => a.Timestamp + d ≤ b.Timestamp) ∧
    ∀ m ∈ se.powerHistory, ∃ a, prev = some a ∧
      a - se.config.HistoryRetention < m.Timestamp ∧ m.Timestamp ≤ a

/-- Calls of `TestSpeedEstimator_HistoryCleanup`: 20 readings of 5000 W, one
minute apart. -/
def cleanupTestCalls : List (ℚ × Time) :=
  (List.range 20).map (fun i => ((5000 : ℚ), mockStart + (i : Int) * Minute))

/-- The calls `(power, now)` of `UpdatePower`, made one after the other from
`se`, that pass the `Enabled` gate and the rate limit, in order. -/
def acceptedSamples : SpeedEstimator → List (ℚ × Time) → List (ℚ × Time)
  | _, [] => []
  | se, c :: rest =>
    if se.config.Enabled && sampleAccepted se c.2 then
      c :: acceptedSamples (UpdatePower se c.1 c.2) rest
    else acceptedSamples se rest

/-- The sample `(power, now)` is taken inside the max-power window `win` of a
session started at `start`: `now - chargingStarted <= maxPowerWindow`. -/
def inWindow (start : Time) (win : Duration) (c : ℚ × Time) : Bool :=
  decide (Time.Sub c.2 start ≤ win)

/-- Power `p` is the maximum of the powers of the samples `l`, and `t` is the
time of the first sample attaining it. -/
def IsFirstPeak (l : List (ℚ × Time)) (p : ℚ) (t : Time) : Prop :=
  ∃ l1 l2, l = l1 ++ (p, t) :: l2 ∧ (∀ c ∈ l1, c.1 < p) ∧ (∀ c ∈ l2, c.1 ≤ p)

/-- Max-power tracking of a session started at `start` whose clock has reached
`lo`, with `A` the samples accepted inside the window so far: either none of
them was positive (and nothing is recorded, or the window is over), or the
recorded maximum is their peak. -/
def PeakInv (start : Time) (win : Duration) (lo : Time) (se : SpeedEstimator)
    (A : List (ℚ × Time)) : Prop :=
  ((∀ c ∈ A, c.1 ≤ 0) ∧
      ((se.maxPower = 0 ∧ se.maxPowerTime = 0) ∨ win < Time.Sub lo start)) ∨
    (0 < se.maxPower ∧ se.maxPowerTime ≠ 0 ∧ IsFirstPeak A se.maxPower se.maxPowerTime)

/-- Calls of `TestSpeedEstimator_MaxPowerTracking`: 3000 W, 5000 W, 4000 W two
seconds apart, then 6000 W twelve minutes later. -/
def maxPowerTestCalls : List (ℚ × Time) :=
  [ (3000, mockStart),
    (5000, mockStart + 2 * Second),
    (4000, mockStart + 4 * Second),
    (6000, mockStart + 4 * Second + 12 * Minute) ]

/-- The measurement survives a pruning (or lies in a trailing window) taken at
`now` over the span `d`: its timestamp is after `now.Add(-d)`. -/
def afterCutoff (now : Time) (d : Duration) (m : PowerMeasurement) : Bool :=
  Time.After m.Timestamp (Time.Add now (Duration.neg d))

/-- The `float64` nearest to 0.3. -/
def threeTenths : ℚ := 5404319552844595 / 18014398509481984

/-- A session with reduction threshold 0.3: a maximum of 1290 W, then three
readings of 903 W one minute apart. -/
def roundingState : SpeedEstimator :=
  run (NewSpeedEstimator
      { DefaultChargingSpeedConfig with Enabled := true, ReductionThreshold := threeTenths })
    [ Op.start mockStart,
      Op.update 1290 mockStart,
      Op.update 903 (mockStart + 20 * Minute),
      Op.update 903 (mockStart + 21 * Minute),
      Op.update 903 (mockStart + 22 * Minute) ]

/-- A session whose stability window is the least `time.Duration`, with history
retention 10 min: a maximum of 5000 W, then three readings of 4000 W. -/
def wrapState : SpeedEstimator :=
  run (NewSpeedEstimator
      { DefaultChargingSpeedConfig with
        Enabled := true
        StabilityWindow := minDuration
        HistoryRetention := 10 * Minute })
    [ Op.start mockStart,
      Op.update 5000 mockStart,
      Op.update 4000 (mockStart + 16 * Minute),
      Op.update 4000 (mockStart + 17 * Minute),
      Op.update 4000 (mockStart + 18 * Minute) ]

/-! ## Basic facts about the steps -/

section Steps

variable (se : SpeedEstimator) (power : ℚ) (now : Time)

theorem UpdatePower_disabled (h : se.config.Enabled = false) : UpdatePower se power now = se := by
  simp [UpdatePower, UpdatePowerAt, h]

theorem UpdatePower_rejected (h : sampleAccepted se now = false) :
    UpdatePower se power now = se := by
  simp [UpdatePower, UpdatePowerAt, h]

theorem UpdatePower_accepted (hen : se.config.Enabled = true) (h : sampleAccepted se now = true) :
    UpdatePower se power now =
      if (activate (afterMaxPower se power now) power now).estimationActive then
        updateSocEstimation (activate (afterMaxPower se power now) power now) power
      else activate (afterMaxPower se power now) power now := by
  simp [UpdatePower, UpdatePowerAt, hen, h, afterMaxPower]

theorem cleanOldMeasurements_powerHistory :
    (cleanOldMeasurements se now).powerHistory =
      se.powerHistory.filter (afterCutoff now se.config.HistoryRetention) := by
  rfl

theorem updateMaxPower_frame :
    (updateMaxPower se power now).config = se.config ∧
    (updateMaxPower se power now).powerHistory = se.powerHistory ∧
    (updateMaxPower se power now).chargingStarted = se.chargingStarted ∧
    (updateMaxPower se power now).estimationActive = se.estimationActive ∧
    (updateMaxPower se power now).estimatedSoc = se.estimatedSoc ∧
    (updateMaxPower se power now).targetReached = se.targetReached ∧
    (updateMaxPower se power now).lastSample = se.lastSample := by
  unfold updateMaxPower
  split <;> simp

theorem activate_frame :
    (activate se power now).config = se.config ∧
    (activate se power now).powerHistory = se.powerHistory ∧
    (activate se power now).maxPower = se.maxPower ∧
    (activate se power now).maxPowerTime = se.maxPowerTime ∧
    (activate se power now).chargingStarted = se.chargingStarted ∧
    (activate se power now).estimatedSoc = se.estimatedSoc ∧
    (activate se power now).targetReached = se.targetReached ∧
    (activate se power now).lastSample = se.lastSample := by
  unfold activate
  split <;> simp

theorem activate_estimationActive :
    (activate se power now).estimationActive =
      (se.estimationActive || canStartEstimation se now power) := by
  unfold activate
  cases h1 : se.estimationActive <;> cases h2 : canStartEstimation se now power <;> simp [h1]

theorem updateSocEstimation_frame :
    (updateSocEstimation se power).config = se.config ∧
    (updateSocEstimation se power).powerHistory = se.powerHistory ∧
    (updateSocEstimation se power).maxPower = se.maxPower ∧
    (updateSocEstimation se power).maxPowerTime = se.maxPowerTime ∧
    (updateSocEstimation se power).chargingStarted = se.chargingStarted ∧
    (updateSocEstimation se power).estimationActive = se.estimationActive ∧
    (updateSocEstimation se power).lastSample = se.lastSample := by
  unfold updateSocEstimation
  simp only []
  split <;> simp

theorem updateSocEstimation_estimatedSoc :
    (updateSocEstimation se power).estimatedSoc = socEstimate se power := by
  unfold updateSocEstimation
  simp only []
  split <;> simp

theorem updateSocEstimation_targetReached :
    (updateSocEstimation se power).targetReached =
      (se.targetReached ||
        F64.ge (socEstimate se power) (F64.fin (se.config.TargetSoc : ℚ))) := by
  unfold updateSocEstimation
  cases h1 : se.targetReached <;>
    cases h2 : F64.ge (socEstimate se power) (F64.fin (se.config.TargetSoc : ℚ)) <;>
    simp [h1, h2]

theorem afterMaxPower_frame :
    (afterMaxPower se power now).config = se.config ∧
    (afterMaxPower se power now).powerHistory =
      (se.powerHistory ++ [(⟨now, power⟩ : PowerMeasurement)]).filter
        (afterCutoff now se.config.HistoryRetention) ∧
    (afterMaxPower se power now).chargingStarted = se.chargingStarted ∧
    (afterMaxPower se power now).estimationActive = se.estimationActive ∧
    (afterMaxPower se power now).estimatedSoc = se.estimatedSoc ∧
    (afterMaxPower se power now).targetReached = se.targetReached ∧
    (afterMaxPower se power now).lastSample = now := by
  have h := updateMaxPower_frame
    (cleanOldMeasurements
      { se with lastSample := now, powerHistory := se.powerHistory ++ [⟨now, power⟩] } now)
    power now
  obtain ⟨h1, h2, h3, h4, h5, h6, h7⟩ := h
  unfold afterMaxPower
  refine ⟨?_, ?_, ?_, ?_, ?_, ?_, ?_⟩
  · rw [h1]; rfl
  · rw [h2, cleanOldMeasurements_powerHistory]
  · rw [h3]; rfl
  · rw [h4]; rfl
  · rw [h5]; rfl
  · rw [h6]; rfl
  · rw [h7]; rfl

end Steps

/-! ## Spans of time -/

/-- The saturated span grows with its end. -/
theorem Time.Sub_mono (t t2 u : Time) (h : t ≤ t2) : Time.Sub t u ≤ Time.Sub t2 u := by
  unfold Time.Sub
  exact max_le_max (le_refl _) (min_le_min (le_refl _) (by linarith))

/-- Against a bound that a `time.Duration` can hold and that is not the least
one, the saturated span compares as the exact difference. -/
theorem Time.Sub_lt_iff (t u : Time) (d : Duration)
    (h1 : minDuration < d) (h2 : d ≤ maxDuration) : Time.Sub t u < d ↔ t - u < d := by
  unfold Time.Sub
  rw [max_lt_iff, min_lt_iff]
  constructor
  · rintro ⟨-, h | h⟩
    · exact absurd h (not_lt.mpr h2)
    · exact h
  · intro h
    exact ⟨h1, Or.inr h⟩

/-- Against a bound that a `time.Duration` can hold and that is not the
greatest one, the saturated span compares as the exact difference. -/
theorem Time.Sub_le_iff (t u : Time) (d : Duration)
    (h1 : minDuration ≤ d) (h2 : d < maxDuration) : Time.Sub t u ≤ d ↔ t - u ≤ d := by
  unfold Time.Sub
  rw [max_le_iff, min_le_iff]
  constructor
  · rintro ⟨-, h | h⟩
    · exact absurd h (not_le.mpr h2)
    · exact h
  · intro h
    exact ⟨h1, Or.inr h⟩

/-- A saturated span of at least a positive bound is an exact difference of at
least that bound. -/
theorem Time.le_sub_of_le_Sub (t u : Time) (d : Duration) (hd : 0 < d)
    (h : d ≤ Time.Sub t u) : d ≤ t - u := by
  unfold Time.Sub at h
  rcases le_max_iff.1 h with h1 | h1
  · have : minDuration < 0 := by decide
    linarith
  · exact le_trans h1 (min_le_right _ _)

/-- Negation of a span other than the least `time.Duration` is exact. -/
theorem Duration.neg_of_ne (d : Duration) (h : d ≠ minDuration) : Duration.neg d = -d := by
  simp [Duration.neg, h]

/-- For a span other than the least `time.Duration`, the cutoff of a pruning at
`now` is `now - d`. -/
theorem afterCutoff_of_ne (now : Time) (d : Duration) (m : PowerMeasurement)
    (h : d ≠ minDuration) : afterCutoff now d m = decide (now - d < m.Timestamp) := by
  simp [afterCutoff, Time.After, Time.Add, Duration.neg_of_ne d h, sub_eq_add_neg]

/-- A non-negative span is not the least `time.Duration`. -/
theorem ne_minDuration_of_nonneg (d : Duration) (h : 0 ≤ d) : d ≠ minDuration := by
  intro hd
  rw [hd] at h
  exact absurd h (by decide)

/-! ## Arithmetic of finite values -/

theorem div_fin_of_ne_zero (a b : ℚ) (hb : b ≠ 0) :
    F64.div (F64.fin a) (F64.fin b) = F64.fin (a / b) := by
  simp [F64.div, hb]

theorem min_fin_fin (a b : ℚ) : F64.min (F64.fin a) (F64.fin b) = F64.fin (min a b) := by
  unfold F64.min
  by_cases h : a < b
  · simp [h, min_eq_left (le_of_lt h)]
  · simp [h, min_eq_right (not_lt.mp h)]

theorem max_fin_fin (a b : ℚ) : F64.max (F64.fin a) (F64.fin b) = F64.fin (max a b) := by
  unfold F64.max
  by_cases h : a > b
  · simp [h, max_eq_left (le_of_lt h)]
  · simp [h, max_eq_right (not_lt.mp h)]

theorem socEstimate_of_ne_zero (se : SpeedEstimator) (power : ℚ) (h : se.maxPower ≠ 0) :
    socEstimate se power =
      F64.fin (clampPercent (((se.config.TargetSoc : ℚ) - 10) +
        30 * ((se.maxPower - power) / se.maxPower))) := by
  unfold socEstimate powerReduction clampPercent
  rw [div_fin_of_ne_zero _ _ h]
  simp only [F64.mul, F64.add]
  rw [min_fin_fin, max_fin_fin, mul_comm]

/-- The estimate is kept whenever the call ends with estimation active. -/
theorem UpdatePower_active_eq (se : SpeedEstimator) (power : ℚ) (now : Time)
    (hen : se.config.Enabled = true) (hacc : sampleAccepted se now = true)
    (hact : (UpdatePower se power now).estimationActive = true) :
    UpdatePower se power now =
      updateSocEstimation (activate (afterMaxPower se power now) power now) power := by
  rw [UpdatePower_accepted se power now hen hacc] at hact ⊢
  cases h : (activate (afterMaxPower se power now) power now).estimationActive
  · rw [h] at hact
    simp [h] at hact
  · simp

/-- Flag `estimationActive` after an accepted call: the old flag or a fresh
activation decided on the state after the max-power step. -/
theorem UpdatePower_estimationActive (se : SpeedEstimator) (power : ℚ) (now : Time)
    (hen : se.config.Enabled = true) (hacc : sampleAccepted se now = true) :
    (UpdatePower se power now).estimationActive =
      (se.estimationActive || canStartEstimation (afterMaxPower se power now) now power) := by
  rw [UpdatePower_accepted se power now hen hacc]
  obtain ⟨-, -, -, ha, -⟩ := afterMaxPower_frame se power now
  have hact := activate_estimationActive (afterMaxPower se power now) power now
  rw [ha] at hact
  cases h : (activate (afterMaxPower se power now) power now).estimationActive
  · simp only [h, Bool.false_eq_true, if_false]
    rw [← hact, h]
  · simp only [h, if_true]
    rw [(updateSocEstimation_frame _ power).2.2.2.2.2.1, ← hact, h]

/-- Flag `targetReached` never drops in an accepted call. -/
theorem UpdatePower_targetReached_mono (se : SpeedEstimator) (power : ℚ) (now : Time)
    (hen : se.config.Enabled = true) (hacc : sampleAccepted se now = true)
    (h : se.targetReached = true) : (UpdatePower se power now).targetReached = true := by
  rw [UpdatePower_accepted se power now hen hacc]
  obtain ⟨-, -, -, -, -, -, ht, -⟩ := activate_frame (afterMaxPower se power now) power now
  obtain ⟨-, -, -, -, -, ht2, -⟩ := afterMaxPower_frame se power now
  split
  · rw [updateSocEstimation_targetReached, ht, ht2, h]
    rfl
  · rw [ht, ht2, h]

/-- History after an accepted call: the old history, the new sample, pruned. -/
theorem UpdatePower_powerHistory (se : SpeedEstimator) (power : ℚ) (now : Time)
    (hen : se.config.Enabled = true) (hacc : sampleAccepted se now = true) :
    (UpdatePower se power now).powerHistory =
      (se.powerHistory ++ [(⟨now, power⟩ : PowerMeasurement)]).filter
        (afterCutoff now se.config.HistoryRetention) := by
  rw [UpdatePower_accepted se power now hen hacc]
  obtain ⟨-, hp, -⟩ := activate_frame (afterMaxPower se power now) power now
  obtain ⟨-, hp2, -⟩ := afterMaxPower_frame se power now
  split
  · rw [(updateSocEstimation_frame _ power).2.1, hp, hp2]
  · rw [hp, hp2]

/-- Field `lastSample` after an accepted call. -/
theorem UpdatePower_lastSample (se : SpeedEstimator) (power : ℚ) (now : Time)
    (hen : se.config.Enabled = true) (hacc : sampleAccepted se now = true) :
    (UpdatePower se power now).lastSample = now := by
  rw [UpdatePower_accepted se power now hen hacc]
  obtain ⟨-, -, -, -, -, -, -, hl⟩ := activate_frame (afterMaxPower se power now) power now
  obtain ⟨-, -, -, -, -, -, hl2⟩ := afterMaxPower_frame se power now
  split
  · rw [(updateSocEstimation_frame _ power).2.2.2.2.2.2, hl, hl2]
  · rw [hl, hl2]

/-- The rate limit rejects a call exactly when `lastSample` is set and the call
comes less than `SampleInterval` after it. -/
theorem sampleAccepted_eq_false (se : SpeedEstimator) (now : Time) :
    sampleAccepted se now = false ↔
      (Time.IsZero se.lastSample = false ∧
        Time.Sub now se.lastSample < se.config.SampleInterval) := by
  simp [sampleAccepted]

/-- State after the pruning step keeps everything but the history. -/
theorem cleanOldMeasurements_frame (se : SpeedEstimator) (now : Time) :
    (cleanOldMeasurements se now).config = se.config ∧
    (cleanOldMeasurements se now).maxPower = se.maxPower ∧
    (cleanOldMeasurements se now).maxPowerTime = se.maxPowerTime ∧
    (cleanOldMeasurements se now).chargingStarted = se.chargingStarted := by
  simp [cleanOldMeasurements]

/-- Maximum after an accepted call: the one of the max-power step. -/
theorem UpdatePower_maxPower (se : SpeedEstimator) (power : ℚ) (now : Time)
    (hen : se.config.Enabled = true) (hacc : sampleAccepted se now = true) :
    (UpdatePower se power now).maxPower = (afterMaxPower se power now).maxPower ∧
    (UpdatePower se power now).maxPowerTime = (afterMaxPower se power now).maxPowerTime := by
  rw [UpdatePower_accepted se power now hen hacc]
  obtain ⟨-, -, hm, ht, -⟩ := activate_frame (afterMaxPower se power now) power now
  split
  · rw [(updateSocEstimation_frame _ power).2.2.1, (updateSocEstimation_frame _ power).2.2.2.1,
      hm, ht]
    exact ⟨rfl, rfl⟩
  · rw [hm, ht]
    exact ⟨rfl, rfl⟩

/-- The max-power step in terms of the state before the call. -/
theorem afterMaxPower_maxPower (se : SpeedEstimator) (power : ℚ) (now : Time) :
    (afterMaxPower se power now).maxPower =
        (if power > se.maxPower ∧
            (se.maxPowerTime = 0 ∨
              Time.Sub now se.chargingStarted ≤ se.config.MaxPowerWindow)
          then power else se.maxPower) ∧
    (afterMaxPower se power now).maxPowerTime =
        (if power > se.maxPower ∧
            (se.maxPowerTime = 0 ∨
              Time.Sub now se.chargingStarted ≤ se.config.MaxPowerWindow)
          then now else se.maxPowerTime) := by
  unfold afterMaxPower updateMaxPower
  simp only [cleanOldMeasurements, Time.IsZero, Bool.and_eq_true, Bool.or_eq_true,
    decide_eq_true_eq, beq_iff_eq]
  split <;> exact ⟨rfl, rfl⟩

/-- On a value that is not `NaN` the tests `x < t` and `x >= t` are complementary. -/
theorem lt_eq_false_iff_ge (x : F64) (t : ℚ) (hx : x ≠ F64.nan) :
    F64.lt x (F64.fin t) = false ↔ F64.ge x (F64.fin t) = true := by
  cases x with
  | fin a => simp [F64.lt, F64.ge]
  | posInf => simp [F64.lt, F64.ge]
  | negInf => simp [F64.lt, F64.ge]
  | nan => exact absurd rfl hx

/-- The quotient `(maxPower - power) / maxPower` is `NaN` only as `0 / 0`. -/
theorem powerReduction_eq_nan_iff (se : SpeedEstimator) (power : ℚ) :
    powerReduction se power = F64.nan ↔ se.maxPower = 0 ∧ power = 0 := by
  unfold powerReduction
  by_cases hm : se.maxPower = 0
  · by_cases hp : power = 0
    · simp [F64.div, hm, hp]
    · simp [F64.div, hm, hp, F64.infOfSign]
      split <;> simp
  · simp [F64.div, hm]

/-- Method `canStartEstimation` as the conjunction of its four checks. -/
theorem canStartEstimation_iff (se : SpeedEstimator) (now : Time) (power : ℚ) :
    canStartEstimation se now power = true ↔
      (¬ Time.Sub now se.chargingStarted < se.config.MinChargingTime ∧
        ¬ se.maxPower < se.config.MinPowerForEstimation ∧
        F64.lt (powerReduction se power) (F64.fin se.config.ReductionThreshold) = false ∧
        hasStablePowerReduction se now power = true) := by
  unfold canStartEstimation
  split
  · simp [*]
  · split
    · simp [*]
    · split
      · simp [*]
      · simp [*]

/-- Activation by an accepted call on an inactive estimator, when the quotient
`(maxPower - power) / maxPower` is a number: the four conditions of the
specification, on the state after the max-power step. -/
theorem UpdatePower_activation_iff (se : SpeedEstimator) (power : ℚ) (now : Time)
    (hen : se.config.Enabled = true) (hacc : sampleAccepted se now = true)
    (hoff : se.estimationActive = false)
    (hnum : ¬ ((afterMaxPower se power now).maxPower = 0 ∧ power = 0)) :
    (UpdatePower se power now).estimationActive = true ↔
      (Time.Sub now se.chargingStarted ≥ se.config.MinChargingTime ∧
        (afterMaxPower se power now).maxPower ≥ se.config.MinPowerForEstimation ∧
        F64.ge (powerReduction (afterMaxPower se power now) power)
          (F64.fin se.config.ReductionThreshold) = true ∧
        hasStablePowerReduction (afterMaxPower se power now) now power = true) := by
  rw [UpdatePower_estimationActive se power now hen hacc, hoff, Bool.false_or,
    canStartEstimation_iff]
  obtain ⟨hc, -, hs, -⟩ := afterMaxPower_frame se power now
  have hx : powerReduction (afterMaxPower se power now) power ≠ F64.nan := fun h =>
    hnum ((powerReduction_eq_nan_iff _ _).1 h)
  rw [hc, hs, lt_eq_false_iff_ge _ _ hx, not_lt, not_lt]

/-- Configuration is never changed by a call. -/
theorem step_config (se : SpeedEstimator) (op : Op) : (step se op).config = se.config := by
  cases op with
  | start t => rfl
  | stop => rfl
  | update p t =>
    simp only [step]
    cases hen : se.config.Enabled
    · rw [UpdatePower_disabled se p t hen]
    · cases hacc : sampleAccepted se t
      · rw [UpdatePower_rejected se p t hacc]
      · rw [UpdatePower_accepted se p t hen hacc]
        obtain ⟨hc, -⟩ := activate_frame (afterMaxPower se p t) p t
        obtain ⟨hc2, -⟩ := afterMaxPower_frame se p t
        split
        · rw [(updateSocEstimation_frame _ p).1, hc, hc2]
        · rw [hc, hc2]

/-- The max-power step never lowers the maximum. -/
theorem afterMaxPower_maxPower_ge (se : SpeedEstimator) (power : ℚ) (now : Time) :
    se.maxPower ≤ (afterMaxPower se power now).maxPower := by
  rw [(afterMaxPower_maxPower se power now).1]
  split
  · rename_i h
    exact le_of_lt h.1
  · exact le_refl _

/-- The rational clamp lands in `[0, 100]`. -/
theorem inRange_clampPercent (x : ℚ) : F64.inRange 0 100 (F64.fin (clampPercent x)) = true := by
  have h0 : (0 : ℚ) ≤ clampPercent x := le_max_left _ _
  have h1 : clampPercent x ≤ 100 := max_le (by norm_num) (min_le_left _ _)
  simp [F64.inRange, F64.ge, h0, h1]

theorem RangeInv_step (se : SpeedEstimator) (op : Op)
    (hpos : 0 < se.config.MinPowerForEstimation) (h : RangeInv se) : RangeInv (step se op) := by
  cases op with
  | start t =>
    refine ⟨?_, fun ha => ?_⟩
    · simp [step, StartCharging, F64.inRange, F64.ge]
    · simp [step, StartCharging] at ha
  | stop =>
    refine ⟨h.1, fun ha => ?_⟩
    simp [step, StopCharging] at ha
  | update p t =>
    simp only [step]
    cases hen : se.config.Enabled
    · rw [UpdatePower_disabled se p t hen]; exact h
    · cases hacc : sampleAccepted se t
      · rw [UpdatePower_rejected se p t hacc]; exact h
      · obtain ⟨hc2, -, -, -, he2, -⟩ := afterMaxPower_frame se p t
        obtain ⟨hc, -, hm, -, -, he, -⟩ := activate_frame (afterMaxPower se p t) p t
        have hcfg : (UpdatePower se p t).config = se.config := step_config se (Op.update p t)
        have hmax := (UpdatePower_maxPower se p t hen hacc).1
        have hge : (UpdatePower se p t).estimationActive = true →
            se.config.MinPowerForEstimation ≤ (afterMaxPower se p t).maxPower := by
          intro ha
          rw [UpdatePower_estimationActive se p t hen hacc, Bool.or_eq_true] at ha
          rcases ha with ha | ha
          · exact le_trans (h.2 ha) (afterMaxPower_maxPower_ge se p t)
          · have := ((canStartEstimation_iff _ _ _).1 ha).2.1
            rw [hc2] at this
            exact not_lt.mp this
        refine ⟨?_, fun ha => ?_⟩
        · cases ha : (UpdatePower se p t).estimationActive
          · rw [UpdatePower_accepted se p t hen hacc] at ha ⊢
            split
            · rename_i hact
              rw [if_pos hact, (updateSocEstimation_frame _ p).2.2.2.2.2.1, hact] at ha
              exact Bool.noConfusion ha
            · rw [he, he2]; exact h.1
          · rw [UpdatePower_active_eq se p t hen hacc ha, updateSocEstimation_estimatedSoc,
              socEstimate_of_ne_zero]
            · exact inRange_clampPercent _
            · rw [hm]
              exact ne_of_gt (lt_of_lt_of_le hpos (hge ha))
        · rw [hcfg, hmax]
          exact hge ha

/-- With a positive `minPowerForEstimation` the estimate stays in `[0, 100]` in
every state reached from `NewSpeedEstimator`. -/
theorem estimatedSoc_inRange_of_minPower_pos (config : ChargingSpeedConfig) (ops : List Op)
    (hpos : 0 < (NewSpeedEstimator config).config.MinPowerForEstimation) :
    F64.inRange 0 100 (run (NewSpeedEstimator config) ops).estimatedSoc = true := by
  have key : ∀ (l : List Op) (se : SpeedEstimator), 0 < se.config.MinPowerForEstimation →
      RangeInv se → RangeInv (List.foldl step se l) := by
    intro l
    induction l with
    | nil => intro se _ h; exact h
    | cons op l ih =>
      intro se hp h
      simp only [List.foldl_cons]
      exact ih (step se op) (by rw [step_config]; exact hp) (RangeInv_step se op hp h)
  have h0 : RangeInv (NewSpeedEstimator config) := by
    refine ⟨?_, fun ha => ?_⟩
    · simp [NewSpeedEstimator, F64.inRange, F64.ge]
    · simp [NewSpeedEstimator] at ha
  exact (key ops _ hpos h0).1

/-- When the activation step ends active, the maximum after the max-power step
is at least `minPowerForEstimation`. -/
theorem minPower_le_of_active (se : SpeedEstimator) (power : ℚ) (now : Time)
    (hinv : ActiveInv se)
    (hact : (activate (afterMaxPower se power now) power now).estimationActive = true) :
    se.config.MinPowerForEstimation ≤ (afterMaxPower se power now).maxPower := by
  obtain ⟨hc2, -, -, he2, -⟩ := afterMaxPower_frame se power now
  rw [activate_estimationActive, he2, Bool.or_eq_true] at hact
  rcases hact with ha | ha
  · exact le_trans (hinv ha) (afterMaxPower_maxPower_ge se power now)
  · have := ((canStartEstimation_iff _ _ _).1 ha).2.1
    rw [hc2] at this
    exact not_lt.mp this

/-- Flag `estimationActive` after an accepted call is the flag left by the
activation step. -/
theorem UpdatePower_estimationActive_eq_activate (se : SpeedEstimator) (power : ℚ) (now : Time)
    (hen : se.config.Enabled = true) (hacc : sampleAccepted se now = true) :
    (UpdatePower se power now).estimationActive =
      (activate (afterMaxPower se power now) power now).estimationActive := by
  obtain ⟨-, -, -, he2, -⟩ := afterMaxPower_frame se power now
  rw [UpdatePower_estimationActive se power now hen hacc, activate_estimationActive, he2]

theorem ActiveInv_step (se : SpeedEstimator) (op : Op) (h : ActiveInv se) :
    ActiveInv (step se op) := by
  cases op with
  | start t =>
    intro ha
    simp [step, StartCharging] at ha
  | stop =>
    intro ha
    simp [step, StopCharging] at ha
  | update p t =>
    simp only [step]
    cases hen : se.config.Enabled
    · rw [UpdatePower_disabled se p t hen]; exact h
    · cases hacc : sampleAccepted se t
      · rw [UpdatePower_rejected se p t hacc]; exact h
      · intro ha
        have hcfg : (UpdatePower se p t).config = se.config := step_config se (Op.update p t)
        rw [hcfg, (UpdatePower_maxPower se p t hen hacc).1]
        rw [UpdatePower_estimationActive_eq_activate se p t hen hacc] at ha
        exact minPower_le_of_active se p t h ha

theorem ActiveInv_run (config : ChargingSpeedConfig) (ops : List Op) :
    ActiveInv (run (NewSpeedEstimator config) ops) := by
  have key : ∀ (l : List Op) (se : SpeedEstimator), ActiveInv se →
      ActiveInv (List.foldl step se l) := by
    intro l
    induction l with
    | nil => intro se h; exact h
    | cons op l ih =>
      intro se h
      simp only [List.foldl_cons]
      exact ih (step se op) (ActiveInv_step se op h)
  refine key ops _ ?_
  intro ha
  simp [NewSpeedEstimator] at ha

/-- Estimate after an accepted call that ends active, when the maximum after
the max-power step is not zero. -/
theorem UpdatePower_estimatedSoc_of_ne_zero (se : SpeedEstimator) (power : ℚ) (now : Time)
    (hen : se.config.Enabled = true) (hacc : sampleAccepted se now = true)
    (hact : (UpdatePower se power now).estimationActive = true)
    (hne : (afterMaxPower se power now).maxPower ≠ 0) :
    (UpdatePower se power now).estimatedSoc =
      F64.fin (clampPercent (((se.config.TargetSoc : ℚ) - 10) +
        30 * (((afterMaxPower se power now).maxPower - power) /
          (afterMaxPower se power now).maxPower))) := by
  rw [UpdatePower_active_eq se power now hen hacc hact, updateSocEstimation_estimatedSoc]
  obtain ⟨hc, -, hm, -⟩ := activate_frame (afterMaxPower se power now) power now
  obtain ⟨hc2, -⟩ := afterMaxPower_frame se power now
  rw [socEstimate_of_ne_zero _ _ (by rw [hm]; exact hne), hc, hm, hc2]

/-- For a target between 1 and 100, the clamped estimate reaches the target
exactly when the unclamped one does. -/
theorem target_le_clampPercent_iff (T x : ℚ) (h1 : 1 ≤ T) (h2 : T ≤ 100) :
    T ≤ clampPercent x ↔ T ≤ x := by
  unfold clampPercent
  rw [le_max_iff, le_min_iff]
  constructor
  · rintro (h | h)
    · linarith
    · exact h.2
  · intro h
    exact Or.inr ⟨h2, h⟩

/-- Accepted sample on a set `lastSample`, with a positive `SampleInterval`: it
comes `SampleInterval` later. -/
theorem interval_le_of_accepted (se : SpeedEstimator) (now : Time)
    (hI : 0 < se.config.SampleInterval)
    (hacc : sampleAccepted se now = true) (hset : Time.IsZero se.lastSample = false) :
    se.lastSample + se.config.SampleInterval ≤ now := by
  have h : ¬ (Time.IsZero se.lastSample = false ∧
      Time.Sub now se.lastSample < se.config.SampleInterval) := by
    intro hc
    rw [← sampleAccepted_eq_false, hacc] at hc
    exact Bool.noConfusion hc
  have h2 : ¬ Time.Sub now se.lastSample < se.config.SampleInterval := fun hc => h ⟨hset, hc⟩
  linarith [Time.le_sub_of_le_Sub now se.lastSample _ hI (not_lt.mp h2)]

theorem SpacedInv_step (se : SpeedEstimator) (op : Op)
    (hI : 0 < se.config.SampleInterval) (hop : readingSet op = true)
    (h : SpacedInv se.config.SampleInterval se) :
    SpacedInv se.config.SampleInterval (step se op) := by
  cases op with
  | start t =>
    refine ⟨?_, ?_⟩
    · simp [step, StartCharging]
    · intro m hm
      simp [step, StartCharging] at hm
  | stop => exact h
  | update p t =>
    simp only [step]
    cases hen : se.config.Enabled
    · rw [UpdatePower_disabled se p t hen]; exact h
    · cases hacc : sampleAccepted se t
      · rw [UpdatePower_rejected se p t hacc]; exact h
      · have ht : Time.IsZero t = false := by simpa [readingSet] using hop
        have hold : ∀ m ∈ se.powerHistory, m.Timestamp + se.config.SampleInterval ≤ t := by
          intro m hm
          have := (h.2 m hm)
          linarith [interval_le_of_accepted se t hI hacc this.1, this.2]
        rw [SpacedInv, UpdatePower_powerHistory se p t hen hacc,
          UpdatePower_lastSample se p t hen hacc]
        refine ⟨List.Pairwise.sublist (List.filter_sublist _) ?_, ?_⟩
        · rw [List.pairwise_append]
          refine ⟨h.1, List.pairwise_singleton _ _, ?_⟩
          intro a ha b hb
          rw [List.mem_singleton] at hb
          subst hb
          exact hold a ha
        · intro m hm
          refine ⟨ht, ?_⟩
          have hm2 := (List.mem_filter.1 hm).1
          rw [List.mem_append, List.mem_singleton] at hm2
          rcases hm2 with hm2 | hm2
          · linarith [hold m hm2]
          · subst hm2
            exact le_refl _

theorem SpacedInv_run (config : ChargingSpeedConfig) (ops : List Op)
    (hI : 0 < config.SampleInterval) (hops : ∀ op ∈ ops, readingSet op = true) :
    (run (NewSpeedEstimator config) ops).config = config ∧
      SpacedInv config.SampleInterval (run (NewSpeedEstimator config) ops) := by
  have key : ∀ (l : List Op) (se : SpeedEstimator), se.config = config →
      (∀ op ∈ l, readingSet op = true) → SpacedInv config.SampleInterval se →
      (List.foldl step se l).config = config ∧
        SpacedInv config.SampleInterval (List.foldl step se l) := by
    intro l
    induction l with
    | nil => intro se hc _ h; exact ⟨hc, h⟩
    | cons op l ih =>
      intro se hc hl h
      simp only [List.foldl_cons]
      refine ih (step se op) (by rw [step_config, hc])
        (fun o ho => hl o (List.mem_cons_of_mem op ho)) ?_
      have := SpacedInv_step se op (by rw [hc]; exact hI) (hl op (List.mem_cons_self op l))
        (by rw [hc]; exact h)
      rw [hc] at this
      exact this
  have hcfg : (NewSpeedEstimator config).config = config := by
    simp [NewSpeedEstimator, ne_of_gt hI]
  refine key ops _ hcfg hops ⟨?_, ?_⟩
  · simp [NewSpeedEstimator]
  · intro m hm
    simp [NewSpeedEstimator] at hm

/-- Entries `d` apart that end at or before `hi`: the first entry leaves room
for the others. -/
theorem spaced_length_le (d hi : Int) :
    ∀ (a : PowerMeasurement) (rest : List PowerMeasurement),
      (a :: rest).Pairwise (fun x y => x.Timestamp + d ≤ y.Timestamp) →
      (∀ m ∈ a :: rest, m.Timestamp ≤ hi) →
      (rest.length : Int) * d ≤ hi - a.Timestamp := by
  intro a rest
  induction rest generalizing a with
  | nil =>
    intro _ hle
    have := hle a (List.mem_cons_self a [])
    simp only [List.length_nil, Nat.cast_zero, zero_mul]
    linarith
  | cons b r ih =>
    intro hp hle
    have hab : a.Timestamp + d ≤ b.Timestamp :=
      (List.pairwise_cons.1 hp).1 b (List.mem_cons_self b r)
    have hrec := ih b (List.pairwise_cons.1 hp).2
      (fun m hm => hle m (List.mem_cons_of_mem a hm))
    simp only [List.length_cons, Nat.cast_add, Nat.cast_one]
    linarith [add_mul (r.length : Int) 1 d]

/-- Bound on the history of a state with the window invariant. -/
theorem WindowInv_length_le (d : Duration) (se : SpeedEstimator) (prev : Option Time)
    (hd : 0 < d) (hR : 0 ≤ se.config.HistoryRetention) (h : WindowInv d se prev) :
    (se.powerHistory.length : Int) ≤ se.config.HistoryRetention / d + 1 := by
  obtain ⟨hp, hw⟩ := h
  cases hh : se.powerHistory with
  | nil =>
    have := Int.ediv_nonneg hR (le_of_lt hd)
    simp only [List.length_nil, Nat.cast_zero]
    linarith
  | cons a rest =>
    rw [hh] at hp hw
    obtain ⟨hi, hprev, hlo, -⟩ := hw a (List.mem_cons_self a rest)
    have hall : ∀ m ∈ a :: rest, m.Timestamp ≤ hi := by
      intro m hm
      obtain ⟨hi2, hprev2, -, hup⟩ := hw m hm
      rw [hprev] at hprev2
      cases hprev2
      exact hup
    have hlen := spaced_length_le d hi a rest hp hall
    have hmul : (rest.length : Int) * d ≤ se.config.HistoryRetention := by linarith
    have := Int.le_ediv_of_mul_le hd hmul
    simp only [List.length_cons, Nat.cast_add, Nat.cast_one]
    linarith

/-- The window invariant is kept along calls whose accepted samples are spaced. -/
theorem WindowInv_calls (d : Duration) (hd : 0 < d) :
    ∀ (calls : List (ℚ × Time)) (se : SpeedEstimator) (prev : Option Time),
      0 ≤ se.config.HistoryRetention →
      WindowInv d se prev → spacedFrom d se prev calls = true →
      ∃ prev2, WindowInv d
        (List.foldl step se (calls.map (fun c => Op.update c.1 c.2))) prev2 ∧
        (List.foldl step se (calls.map (fun c => Op.update c.1 c.2))).config = se.config := by
  intro calls
  induction calls with
  | nil => intro se prev _ h _; exact ⟨prev, h, rfl⟩
  | cons c l ih =>
    intro se prev hR h hsp
    simp only [List.map_cons, List.foldl_cons, step]
    unfold spacedFrom at hsp
    cases hen : se.config.Enabled
    · rw [UpdatePower_disabled se c.1 c.2 hen]
      simp only [hen, Bool.false_and, Bool.false_eq_true, if_false] at hsp
      exact ih se prev hR h hsp
    · cases hacc : sampleAccepted se c.2
      · rw [UpdatePower_rejected se c.1 c.2 hacc]
        simp only [hen, hacc, Bool.and_false, Bool.false_eq_true, if_false] at hsp
        exact ih se prev hR h hsp
      · simp only [hen, hacc, Bool.and_self, if_true, Bool.and_eq_true] at hsp
        have hcfg : (UpdatePower se c.1 c.2).config = se.config :=
          step_config se (Op.update c.1 c.2)
        have hnew : WindowInv d (UpdatePower se c.1 c.2) (some c.2) := by
          have hold : ∀ m ∈ se.powerHistory, m.Timestamp + d ≤ c.2 := by
            intro m hm
            obtain ⟨a, ha, -, hup⟩ := h.2 m hm
            have h1 := hsp.1
            rw [ha] at h1
            simp only [decide_eq_true_eq] at h1
            linarith
          rw [WindowInv, UpdatePower_powerHistory se c.1 c.2 hen hacc, hcfg]
          refine ⟨List.Pairwise.sublist (List.filter_sublist _) ?_, ?_⟩
          · rw [List.pairwise_append]
            refine ⟨h.1, List.pairwise_singleton _ _, ?_⟩
            intro a ha b hb
            rw [List.mem_singleton] at hb
            subst hb
            exact hold a ha
          · intro m hm
            refine ⟨c.2, rfl, ?_, ?_⟩
            · have := (List.mem_filter.1 hm).2
              rw [afterCutoff_of_ne _ _ _ (ne_minDuration_of_nonneg _ hR)] at this
              simpa using this
            · have hm2 := (List.mem_filter.1 hm).1
              rw [List.mem_append, List.mem_singleton] at hm2
              rcases hm2 with hm2 | hm2
              · linarith [hold m hm2]
              · subst hm2
                exact le_refl _
        obtain ⟨prev2, hw, hc⟩ := ih (UpdatePower se c.1 c.2) (some c.2)
          (by rw [hcfg]; exact hR) hnew hsp.2
        exact ⟨prev2, hw, by rw [hc, hcfg]⟩

/-- Spacing of the accepted samples passes to every initial segment of the calls. -/
theorem spacedFrom_take (d : Duration) :
    ∀ (calls : List (ℚ × Time)) (n : Nat) (se : SpeedEstimator) (prev : Option Time),
      spacedFrom d se prev calls = true → spacedFrom d se prev (calls.take n) = true := by
  intro calls
  induction calls with
  | nil => intro n se prev h; simpa using h
  | cons c l ih =>
    intro n se prev h
    cases n with
    | zero => rfl
    | succ n =>
      simp only [List.take_succ_cons]
      unfold spacedFrom at h ⊢
      split at h
      · rename_i hc
        rw [if_pos hc]
        rw [Bool.and_eq_true] at h ⊢
        exact ⟨h.1, ih n _ _ h.2⟩
      · rename_i hc
        rw [if_neg hc]
        exact ih n _ _ h

/-- With a positive `SampleInterval` and clock readings that are never the zero
instant, the rate limit itself keeps accepted samples `SampleInterval` apart. -/
theorem spacedFrom_sampleInterval :
    ∀ (calls : List (ℚ × Time)) (se : SpeedEstimator) (prev : Option Time),
      0 < se.config.SampleInterval →
      (∀ c ∈ calls, Time.IsZero c.2 = false) →
      (∀ a, prev = some a → se.lastSample = a ∧ Time.IsZero a = false) →
      spacedFrom se.config.SampleInterval se prev calls = true := by
  intro calls
  induction calls with
  | nil => intro se prev _ _ _; rfl
  | cons c l ih =>
    intro se prev hI hz hprev
    unfold spacedFrom
    have hl : ∀ x ∈ l, Time.IsZero x.2 = false := fun x hx => hz x (List.mem_cons_of_mem c hx)
    split
    · rename_i hc
      rw [Bool.and_eq_true] at hc
      have hcfg : (UpdatePower se c.1 c.2).config = se.config :=
        step_config se (Op.update c.1 c.2)
      have hrec := ih (UpdatePower se c.1 c.2) (some c.2) (by rw [hcfg]; exact hI) hl (by
        intro a ha
        cases ha
        exact ⟨UpdatePower_lastSample se c.1 c.2 hc.1 hc.2, hz c (List.mem_cons_self c l)⟩)
      rw [hcfg] at hrec
      rw [Bool.and_eq_true]
      refine ⟨?_, hrec⟩
      cases prev with
      | none => rfl
      | some a =>
        obtain ⟨h1, h2⟩ := hprev a rfl
        have := interval_le_of_accepted se c.2 hI hc.2 (by rw [h1]; exact h2)
        rw [h1] at this
        simpa using this
    · exact ih se prev hI hl hprev

/-- No call of `UpdatePower` moves the start of the session. -/
theorem UpdatePower_chargingStarted (se : SpeedEstimator) (power : ℚ) (now : Time) :
    (UpdatePower se power now).chargingStarted = se.chargingStarted := by
  cases hen : se.config.Enabled
  · rw [UpdatePower_disabled se power now hen]
  · cases hacc : sampleAccepted se now
    · rw [UpdatePower_rejected se power now hacc]
    · rw [UpdatePower_accepted se power now hen hacc]
      obtain ⟨-, -, -, -, hs, -⟩ := activate_frame (afterMaxPower se power now) power now
      obtain ⟨-, -, hs2, -⟩ := afterMaxPower_frame se power now
      split
      · rw [(updateSocEstimation_frame _ power).2.2.2.2.1, hs, hs2]
      · rw [hs, hs2]

theorem PeakInv_mono (start : Time) (win : Duration) (lo lo2 : Time) (se : SpeedEstimator)
    (A : List (ℚ × Time)) (h : lo ≤ lo2) (hinv : PeakInv start win lo se A) :
    PeakInv start win lo2 se A := by
  rcases hinv with ⟨hA, hz | hlate⟩ | hpk
  · exact Or.inl ⟨hA, Or.inl hz⟩
  · exact Or.inl ⟨hA, Or.inr (lt_of_lt_of_le hlate (Time.Sub_mono lo lo2 start h))⟩
  · exact Or.inr hpk

/-- One accepted sample keeps the max-power invariant. -/
theorem PeakInv_accept (start : Time) (win : Duration) (lo : Time) (se : SpeedEstimator)
    (A : List (ℚ × Time)) (p : ℚ) (t : Time)
    (hen : se.config.Enabled = true) (hacc : sampleAccepted se t = true)
    (hs : se.chargingStarted = start) (hw : se.config.MaxPowerWindow = win)
    (hlo : lo ≤ t) (ht : t ≠ 0) (hinv : PeakInv start win lo se A) :
    PeakInv start win t (UpdatePower se p t) (A ++ [(p, t)].filter (inWindow start win)) := by
  obtain ⟨h1, h2⟩ := UpdatePower_maxPower se p t hen hacc
  obtain ⟨h3, h4⟩ := afterMaxPower_maxPower se p t
  rw [h3] at h1
  rw [h4] at h2
  rw [hs, hw] at h1 h2
  unfold PeakInv
  rw [h1, h2]
  by_cases hin : Time.Sub t start ≤ win
  · have hf : [(p, t)].filter (inWindow start win) = [(p, t)] := by
      simp [inWindow, hin]
    rw [hf]
    rcases hinv with ⟨hA, hz | hlate⟩ | ⟨hpos, hne, l1, l2, hl, hl1, hl2⟩
    · by_cases hp : p > se.maxPower
      · have hc : p > se.maxPower ∧ (se.maxPowerTime = 0 ∨ Time.Sub t start ≤ win) := ⟨hp, Or.inr hin⟩
        rw [if_pos hc, if_pos hc]
        rw [hz.1] at hp
        exact Or.inr ⟨hp, ht, A, [], rfl, fun c hc => lt_of_le_of_lt (hA c hc) hp,
          fun c hc => absurd hc (List.not_mem_nil c)⟩
      · have hc : ¬ (p > se.maxPower ∧ (se.maxPowerTime = 0 ∨ Time.Sub t start ≤ win)) :=
          fun h => hp h.1
        rw [if_neg hc, if_neg hc]
        refine Or.inl ⟨?_, Or.inl hz⟩
        intro c hc
        rw [List.mem_append, List.mem_singleton] at hc
        rcases hc with hc | hc
        · exact hA c hc
        · subst hc
          rw [hz.1] at hp
          exact not_lt.mp hp
    · exfalso
      exact absurd (lt_of_lt_of_le hlate (Time.Sub_mono lo t start hlo)) (not_lt.mpr hin)
    · by_cases hp : p > se.maxPower
      · have hc : p > se.maxPower ∧ (se.maxPowerTime = 0 ∨ Time.Sub t start ≤ win) := ⟨hp, Or.inr hin⟩
        rw [if_pos hc, if_pos hc]
        refine Or.inr ⟨lt_trans hpos hp, ht, A, [], rfl, ?_, fun c hc => absurd hc (List.not_mem_nil c)⟩
        intro c hc
        rw [hl, List.mem_append, List.mem_cons] at hc
        rcases hc with hc | hc | hc
        · exact lt_trans (hl1 c hc) hp
        · subst hc
          exact hp
        · exact lt_of_le_of_lt (hl2 c hc) hp
      · have hc : ¬ (p > se.maxPower ∧ (se.maxPowerTime = 0 ∨ Time.Sub t start ≤ win)) :=
          fun h => hp h.1
        rw [if_neg hc, if_neg hc]
        refine Or.inr ⟨hpos, hne, l1, l2 ++ [(p, t)], ?_, hl1, ?_⟩
        · rw [hl]
          simp
        · intro c hc
          rw [List.mem_append, List.mem_singleton] at hc
          rcases hc with hc | hc
          · exact hl2 c hc
          · subst hc
            exact not_lt.mp hp
  · have hf : [(p, t)].filter (inWindow start win) = [] := by
      simp [inWindow, hin]
    rw [hf, List.append_nil]
    rcases hinv with ⟨hA, -⟩ | ⟨hpos, hne, hpk⟩
    · exact Or.inl ⟨hA, Or.inr (not_le.mp hin)⟩
    · have hc : ¬ (p > se.maxPower ∧ (se.maxPowerTime = 0 ∨ Time.Sub t start ≤ win)) := by
        rintro ⟨-, h | h⟩
        · exact hne h
        · exact hin h
      rw [if_neg hc, if_neg hc]
      exact Or.inr ⟨hpos, hne, hpk⟩

/-- The max-power invariant along the calls of a session with a non-decreasing
clock that never reads the zero instant. -/
theorem PeakInv_calls (start : Time) (win : Duration) :
    ∀ (calls : List (ℚ × Time)) (se : SpeedEstimator) (lo : Time) (A : List (ℚ × Time)),
      se.config.Enabled = true → se.chargingStarted = start →
      se.config.MaxPowerWindow = win →
      List.Chain (fun a b => a ≤ b) lo (calls.map Prod.snd) →
      (∀ c ∈ calls, Time.IsZero c.2 = false) →
      PeakInv start win lo se A →
      ∃ lo2, PeakInv start win lo2
        (List.foldl step se (calls.map (fun c => Op.update c.1 c.2)))
        (A ++ (acceptedSamples se calls).filter (inWindow start win)) := by
  intro calls
  induction calls with
  | nil =>
    intro se lo A _ _ _ _ _ h
    exact ⟨lo, by simpa [acceptedSamples] using h⟩
  | cons c l ih =>
    intro se lo A hen hs hw hch hz hinv
    simp only [List.map_cons, List.chain_cons] at hch
    have hl : ∀ x ∈ l, Time.IsZero x.2 = false := fun x hx => hz x (List.mem_cons_of_mem c hx)
    simp only [List.map_cons, List.foldl_cons, step]
    unfold acceptedSamples
    cases hacc : sampleAccepted se c.2
    · rw [UpdatePower_rejected se c.1 c.2 hacc]
      simp only [hen, Bool.and_false, Bool.false_eq_true, if_false]
      exact ih se c.2 A hen hs hw hch.2 hl (PeakInv_mono start win lo c.2 se A hch.1 hinv)
    · simp only [hen, Bool.and_self, if_true]
      have ht : c.2 ≠ 0 := by
        have := hz c (List.mem_cons_self c l)
        simpa [Time.IsZero] using this
      have hstep := PeakInv_accept start win lo se A c.1 c.2 hen hacc hs hw hch.1 ht hinv
      have hcfg : (UpdatePower se c.1 c.2).config = se.config :=
        step_config se (Op.update c.1 c.2)
      obtain ⟨lo2, h⟩ := ih (UpdatePower se c.1 c.2) c.2
        (A ++ [(c.1, c.2)].filter (inWindow start win))
        (by rw [hcfg]; exact hen) (by rw [UpdatePower_chargingStarted]; exact hs)
        (by rw [hcfg]; exact hw) hch.2 hl hstep
      refine ⟨lo2, ?_⟩
      have hsplit : A ++ List.filter (inWindow start win)
          (c :: acceptedSamples (UpdatePower se c.1 c.2) l) =
          A ++ [(c.1, c.2)].filter (inWindow start win) ++
            (acceptedSamples (UpdatePower se c.1 c.2) l).filter (inWindow start win) := by
        rw [List.append_assoc, ← List.filter_append]
        rfl
      rw [hsplit]
      exact h

/-- History after an accepted call whose pruning step reads the clock at
`cleanNow`: the old history, the new sample, pruned at `cleanNow`. -/
theorem UpdatePowerAt_powerHistory (se : SpeedEstimator) (power : ℚ) (now cleanNow : Time)
    (hen : se.config.Enabled = true) (hacc : sampleAccepted se now = true) :
    (UpdatePowerAt se power now cleanNow).powerHistory =
      (se.powerHistory ++ [(⟨now, power⟩ : PowerMeasurement)]).filter
        (afterCutoff cleanNow se.config.HistoryRetention) := by
  have hfr : ∀ s : SpeedEstimator,
      (if (activate (updateMaxPower s power now) power now).estimationActive then
          updateSocEstimation (activate (updateMaxPower s power now) power now) power
        else activate (updateMaxPower s power now) power now).powerHistory =
        s.powerHistory := by
    intro s
    split
    · rw [(updateSocEstimation_frame _ power).2.1, (activate_frame _ power now).2.1,
        (updateMaxPower_frame s power now).2.1]
    · rw [(activate_frame _ power now).2.1, (updateMaxPower_frame s power now).2.1]
  have hunf : UpdatePowerAt se power now cleanNow =
      (if (activate (updateMaxPower (cleanOldMeasurements
            { se with lastSample := now, powerHistory := se.powerHistory ++ [⟨now, power⟩] }
            cleanNow) power now) power now).estimationActive then
          updateSocEstimation (activate (updateMaxPower (cleanOldMeasurements
            { se with lastSample := now, powerHistory := se.powerHistory ++ [⟨now, power⟩] }
            cleanNow) power now) power now) power
        else activate (updateMaxPower (cleanOldMeasurements
            { se with lastSample := now, powerHistory := se.powerHistory ++ [⟨now, power⟩] }
            cleanNow) power now) power now) := by
    simp [UpdatePowerAt, hen, hacc]
  rw [hunf, hfr, cleanOldMeasurements_powerHistory]

/-- The estimate formula, in exact arithmetic: for a target between 1 and 100
and a positive maximum it reaches the target exactly when
`3 * (maxPower - power) ≥ maxPower`.  The `float64` value that the program
stores is this value up to rounding, so the comparison of the program can
differ for readings within rounding error of `2/3 * maxPower`. -/
theorem socEstimate_reaches_target_iff (se : SpeedEstimator) (power : ℚ)
    (hT1 : 1 ≤ se.config.TargetSoc) (hT2 : se.config.TargetSoc ≤ 100)
    (hmp : 0 < se.maxPower) :
    F64.ge (socEstimate se power) (F64.fin (se.config.TargetSoc : ℚ)) = true ↔
      3 * (se.maxPower - power) ≥ se.maxPower := by
  have hT1q : (1 : ℚ) ≤ (se.config.TargetSoc : ℚ) := by exact_mod_cast hT1
  have hT2q : (se.config.TargetSoc : ℚ) ≤ 100 := by exact_mod_cast hT2
  rw [socEstimate_of_ne_zero se power (ne_of_gt hmp)]
  simp only [F64.ge, decide_eq_true_eq]
  rw [target_le_clampPercent_iff _ _ hT1q hT2q]
  constructor
  · intro h
    have h3 : (1 : ℚ) / 3 ≤ (se.maxPower - power) / se.maxPower := by linarith
    rw [le_div_iff₀ hmp] at h3
    linarith
  · intro h
    have h3 : (1 : ℚ) / 3 ≤ (se.maxPower - power) / se.maxPower := by
      rw [le_div_iff₀ hmp]
      linarith
    linarith

/-! ## The claims -/

/-- C1, the call that breaks it: on the default configuration with
`minPowerForEstimation = 0`, a third reading of 0 W (16 min after
`StartCharging`) is accepted on an inactive estimator and activates the
estimation, although the maximum is still 0, the quotient
`(maxPower - power) / maxPower` is `0 / 0 = NaN` and the condition
`(maxPower - power) / maxPower >= reductionThreshold` does not hold. -/
theorem C1_activation_with_zero_maxPower :
    zeroPowerState.config.Enabled = true ∧
    zeroPowerState.estimationActive = false ∧
    sampleAccepted zeroPowerState (mockStart + 16 * Minute) = true ∧
    (afterMaxPower zeroPowerState 0 (mockStart + 16 * Minute)).maxPower = 0 ∧
    powerReduction (afterMaxPower zeroPowerState 0 (mockStart + 16 * Minute)) 0 = F64.nan ∧
    F64.ge (powerReduction (afterMaxPower zeroPowerState 0 (mockStart + 16 * Minute)) 0)
      (F64.fin zeroPowerState.config.ReductionThreshold) = false ∧
    (UpdatePower zeroPowerState 0 (mockStart + 16 * Minute)).estimationActive = true := by
  decide!

/-- C2 as stated fails: right after `StartCharging` no maximum is recorded, and
a first reading of 6000 W taken 12 min later, outside the window of 10 min,
still becomes the maximum. -/
theorem C2_counterexample :
    (StartCharging (NewSpeedEstimator maxPowerTestConfig) mockStart).config.Enabled = true ∧
    sampleAccepted (StartCharging (NewSpeedEstimator maxPowerTestConfig) mockStart)
      (mockStart + 12 * Minute) = true ∧
    (mockStart + 12 * Minute) -
        (StartCharging (NewSpeedEstimator maxPowerTestConfig) mockStart).chargingStarted >
      (StartCharging (NewSpeedEstimator maxPowerTestConfig) mockStart).config.MaxPowerWindow ∧
    (StartCharging (NewSpeedEstimator maxPowerTestConfig) mockStart).maxPower = 0 ∧
    (UpdatePower (StartCharging (NewSpeedEstimator maxPowerTestConfig) mockStart) 6000
      (mockStart + 12 * Minute)).maxPower = 6000 := by
  decide!

/-- C2, amended: once a maximum has been recorded (`maxPowerTime` is set), a
call of `UpdatePower` at a time `now` with
`now.Sub(chargingStarted) > maxPowerWindow` leaves `maxPower` and `maxPowerTime`
as they were, whatever the power; `Sub` is Go's saturating difference, and for
every window below the greatest `time.Duration` the exact difference
`now - chargingStarted > maxPowerWindow` suffices. -/
theorem C2_maxPower_frozen (se : SpeedEstimator) (power : ℚ) (now : Time)
    (hset : Time.IsZero se.maxPowerTime = false) :
    (Time.Sub now se.chargingStarted > se.config.MaxPowerWindow →
      (UpdatePower se power now).maxPower = se.maxPower ∧
      (UpdatePower se power now).maxPowerTime = se.maxPowerTime) ∧
    (se.config.MaxPowerWindow < maxDuration →
      now - se.chargingStarted > se.config.MaxPowerWindow →
      (UpdatePower se power now).maxPower = se.maxPower ∧
      (UpdatePower se power now).maxPowerTime = se.maxPowerTime) := by
  have main : Time.Sub now se.chargingStarted > se.config.MaxPowerWindow →
      (UpdatePower se power now).maxPower = se.maxPower ∧
      (UpdatePower se power now).maxPowerTime = se.maxPowerTime := by
    intro hlate
    cases hen : se.config.Enabled
    · rw [UpdatePower_disabled se power now hen]
      exact ⟨rfl, rfl⟩
    · cases hacc : sampleAccepted se now
      · rw [UpdatePower_rejected se power now hacc]
        exact ⟨rfl, rfl⟩
      · obtain ⟨h1, h2⟩ := UpdatePower_maxPower se power now hen hacc
        obtain ⟨h3, h4⟩ := afterMaxPower_maxPower se power now
        have hne : se.maxPowerTime ≠ 0 := by
          simpa [Time.IsZero] using hset
        have hcond : ¬ (power > se.maxPower ∧
            (se.maxPowerTime = 0 ∨
              Time.Sub now se.chargingStarted ≤ se.config.MaxPowerWindow)) := by
          rintro ⟨-, h | h⟩
          · exact hne h
          · exact absurd hlate (not_lt.mpr h)
        rw [h1, h2, h3, h4, if_neg hcond, if_neg hcond]
        exact ⟨rfl, rfl⟩
  refine ⟨main, fun hw hlate => main ?_⟩
  unfold Time.Sub
  exact lt_of_lt_of_le (lt_min hw hlate) (le_max_right _ _)

/-- C2 on `TestSpeedEstimator_MaxPowerTracking`: after 3000 W, 5000 W and
4000 W, a reading of 6000 W twelve minutes later leaves the maximum at 5000 W. -/
theorem C2_maxPower_frozen_witness :
    (UpdatePower maxPowerTestState 6000 (mockStart + 4 * Second + 12 * Minute)).maxPower =
      5000 := by
  rw [((C2_maxPower_frozen maxPowerTestState 6000 (mockStart + 4 * Second + 12 * Minute)
    (by decide!)).1 (by decide!)).1]
  decide!

/-- C3: after an accepted `UpdatePower` that leaves estimation active, the
stored estimate is the clamp to `[0, 100]` of `(targetSoc - 10) + 30 * r`, with
`r = (maxPower - power) / maxPower` taken at the maximum as revised by this very
call; when that maximum is not zero this is the rational number
`clamp((targetSoc - 10) + 30 * (maxPower - power) / maxPower, 0, 100)`. -/
theorem C3_estimatedSoc_formula (se : SpeedEstimator) (power : ℚ) (now : Time)
    (hen : se.config.Enabled = true) (hacc : sampleAccepted se now = true)
    (hact : (UpdatePower se power now).estimationActive = true) :
    (UpdatePower se power now).estimatedSoc =
        F64.max (F64.fin 0) (F64.min (F64.fin 100)
          (F64.add (F64.fin ((se.config.TargetSoc : ℚ) - 10))
            (F64.mul
              (F64.div (F64.fin ((afterMaxPower se power now).maxPower - power))
                (F64.fin (afterMaxPower se power now).maxPower))
              (F64.fin 30)))) ∧
    ((afterMaxPower se power now).maxPower ≠ 0 →
      (UpdatePower se power now).estimatedSoc =
        F64.fin (clampPercent (((se.config.TargetSoc : ℚ) - 10) +
          30 * (((afterMaxPower se power now).maxPower - power) /
            (afterMaxPower se power now).maxPower)))) := by
  rw [UpdatePower_active_eq se power now hen hacc hact, updateSocEstimation_estimatedSoc]
  obtain ⟨hc, -, hm, -⟩ := activate_frame (afterMaxPower se power now) power now
  obtain ⟨hc2, -⟩ := afterMaxPower_frame se power now
  refine ⟨?_, fun hne => ?_⟩
  · simp only [socEstimate, powerReduction, hc, hm, hc2]
  · rw [socEstimate_of_ne_zero _ _ (by rw [hm]; exact hne), hc, hm, hc2]

/-- C3 at the reading of 3500 W of `TestSpeedEstimator_SocEstimation`:
the estimate is `70 + 30 * 1500 / 5000 = 79`. -/
theorem C3_estimatedSoc_formula_witness :
    (UpdatePower socTestState 3500 (mockStart + 2 * Minute + 101 * Second)).estimatedSoc =
      F64.fin 79 := by
  have h := (C3_estimatedSoc_formula socTestState 3500 (mockStart + 2 * Minute + 101 * Second)
    (by decide!) (by decide!)
    (by decide!)).2 (by decide!)
  rw [h]
  decide!

/-- C4: after an accepted `UpdatePower` that leaves estimation active,
`targetReached` is its value before the call OR-ed with the test
`estimatedSoc >= targetSoc` on the new estimate; so once set it stays set. -/
theorem C4_targetReached_latch (se : SpeedEstimator) (power : ℚ) (now : Time)
    (hen : se.config.Enabled = true) (hacc : sampleAccepted se now = true)
    (hact : (UpdatePower se power now).estimationActive = true) :
    (UpdatePower se power now).targetReached =
      (se.targetReached ||
        F64.ge (UpdatePower se power now).estimatedSoc (F64.fin (se.config.TargetSoc : ℚ))) := by
  rw [UpdatePower_active_eq se power now hen hacc hact, updateSocEstimation_estimatedSoc,
    updateSocEstimation_targetReached]
  obtain ⟨hc, -, -, -, -, -, ht, -⟩ := activate_frame (afterMaxPower se power now) power now
  obtain ⟨hc2, -, -, -, -, ht2, -⟩ := afterMaxPower_frame se power now
  rw [hc, ht, hc2, ht2]

/-- C4 on a reading of 3900 W after the target was reached in
`TestSpeedEstimator_SocEstimation`: the estimate falls back to 76.6 but
`targetReached` stays set. -/
theorem C4_targetReached_latch_witness :
    F64.ge (UpdatePower socTestReached 3900 (mockStart + 2 * Minute + 103 * Second)).estimatedSoc
        (F64.fin 80) = false ∧
      (UpdatePower socTestReached 3900 (mockStart + 2 * Minute + 103 * Second)).targetReached =
        true := by
  have h := C4_targetReached_latch socTestReached 3900 (mockStart + 2 * Minute + 103 * Second)
    (by decide!) (by decide!) (by decide!)
  refine ⟨by decide!, ?_⟩
  rw [h]
  decide!

/-- C5, the session that breaks it: on the default configuration with
`minPowerForEstimation = 0`, three readings of 0 W (15 min, 15 min 30 s and
16 min after `StartCharging`) leave estimation active with
`estimatedSoc = NaN`, which is not in `[0, 100]`. -/
theorem C5_estimatedSoc_nan :
    (run (NewSpeedEstimator zeroMinPowerConfig)
      [ Op.start mockStart,
        Op.update 0 (mockStart + 15 * Minute),
        Op.update 0 (mockStart + 15 * Minute + 30 * Second),
        Op.update 0 (mockStart + 16 * Minute) ]).estimatedSoc = F64.nan ∧
    F64.inRange 0 100
      (run (NewSpeedEstimator zeroMinPowerConfig)
        [ Op.start mockStart,
          Op.update 0 (mockStart + 15 * Minute),
          Op.update 0 (mockStart + 15 * Minute + 30 * Second),
          Op.update 0 (mockStart + 16 * Minute) ]).estimatedSoc = false := by
  decide!

/-- C6: `UpdatePower` never clears a flag: `estimationActive` and
`targetReached` that are set before a call (accepted or not) are set after it;
a call that clears one of them is `StartCharging` or `StopCharging`. -/
theorem C6_flags_latched (se : SpeedEstimator) (power : ℚ) (now : Time) :
    (se.estimationActive = true → (UpdatePower se power now).estimationActive = true) ∧
    (se.targetReached = true → (UpdatePower se power now).targetReached = true) ∧
    (∀ op : Op,
      (se.estimationActive = true ∧ (step se op).estimationActive = false) ∨
        (se.targetReached = true ∧ (step se op).targetReached = false) →
      op = Op.stop ∨ ∃ t, op = Op.start t) := by
  have hA : ∀ (p : ℚ) (t : Time), se.estimationActive = true →
      (UpdatePower se p t).estimationActive = true := by
    intro p t h
    cases hen : se.config.Enabled
    · rw [UpdatePower_disabled se p t hen]; exact h
    · cases hacc : sampleAccepted se t
      · rw [UpdatePower_rejected se p t hacc]; exact h
      · rw [UpdatePower_estimationActive se p t hen hacc, h]; rfl
  have hT : ∀ (p : ℚ) (t : Time), se.targetReached = true →
      (UpdatePower se p t).targetReached = true := by
    intro p t h
    cases hen : se.config.Enabled
    · rw [UpdatePower_disabled se p t hen]; exact h
    · cases hacc : sampleAccepted se t
      · rw [UpdatePower_rejected se p t hacc]; exact h
      · exact UpdatePower_targetReached_mono se p t hen hacc h
  refine ⟨hA power now, hT power now, ?_⟩
  intro op hop
  cases op with
  | start t => exact Or.inr ⟨t, rfl⟩
  | stop => exact Or.inl rfl
  | update p t =>
    exfalso
    rcases hop with ⟨h1, h2⟩ | ⟨h1, h2⟩
    · have := hA p t h1
      simp only [step] at h2
      rw [this] at h2
      exact Bool.noConfusion h2
    · have := hT p t h1
      simp only [step] at h2
      rw [this] at h2
      exact Bool.noConfusion h2

/-- C6 on the state of `TestSpeedEstimator_SocEstimation` with the target
reached: a reading of 5000 W, back at the maximum, leaves both flags set. -/
theorem C6_flags_latched_witness :
    (UpdatePower socTestReached 5000 (mockStart + 2 * Minute + 103 * Second)).estimationActive =
        true ∧
      (UpdatePower socTestReached 5000 (mockStart + 2 * Minute + 103 * Second)).targetReached =
        true :=
  ⟨(C6_flags_latched socTestReached 5000 (mockStart + 2 * Minute + 103 * Second)).1
      (by decide!),
    (C6_flags_latched socTestReached 5000 (mockStart + 2 * Minute + 103 * Second)).2.1
      (by decide!)⟩

/-- C7 as stated fails, in two ways.  The threshold is a `float64` product: with
a maximum of 1290 W and a reduction threshold of 0.3 it is rounded to
902.99999999999989, so three readings of 903 W in the window, each at most
`maxPower * (1 - reductionThreshold)`, are not stable.  And the start of the
window is `now.Add(-stabilityWindow)`: with the least `time.Duration` as window
the negation wraps around, so no entry is newer than `now - stabilityWindow`,
yet all three are in the window and stable. -/
theorem C7_counterexample :
    (3 ≤ roundingState.powerHistory.countP
        (fun m => decide ((mockStart + 22 * Minute) - roundingState.config.StabilityWindow <
          m.Timestamp)) ∧
      (∀ m ∈ roundingState.powerHistory,
        (mockStart + 22 * Minute) - roundingState.config.StabilityWindow < m.Timestamp →
        m.Power ≤ roundingState.maxPower * (1 - roundingState.config.ReductionThreshold)) ∧
      stabilityThreshold roundingState = F64.fin (7942871999053823 / 8796093022208) ∧
      hasStablePowerReduction roundingState (mockStart + 22 * Minute) 903 = false) ∧
    (wrapState.powerHistory.countP
        (fun m => decide ((mockStart + 18 * Minute) - wrapState.config.StabilityWindow <
          m.Timestamp)) = 0 ∧
      hasStablePowerReduction wrapState (mockStart + 18 * Minute) 4000 = true) := by
  decide!

/-- C7, amended: `hasStablePowerReduction(now)` holds exactly when at least
three entries of the history have a timestamp after `now.Add(-stabilityWindow)`
and none of those entries has a power above the threshold, the `float64` product
`maxPower * (1 - reductionThreshold)` with the difference and the product each
rounded.  Unless `stabilityWindow` is the least `time.Duration` the window is
`timestamp > now - stabilityWindow`, and against a finite threshold `t` "not
above" is `power ≤ t`. -/
theorem C7_hasStablePowerReduction_iff (se : SpeedEstimator) (now : Time) (currentPower : ℚ) :
    (hasStablePowerReduction se now currentPower = true ↔
      (3 ≤ se.powerHistory.countP
          (fun m => Time.After m.Timestamp
            (Time.Add now (Duration.neg se.config.StabilityWindow))) ∧
        ∀ m ∈ se.powerHistory,
          Time.After m.Timestamp
            (Time.Add now (Duration.neg se.config.StabilityWindow)) = true →
          F64.gt (F64.fin m.Power) (stabilityThreshold se) = false)) ∧
    (se.config.StabilityWindow ≠ minDuration →
      ∀ t : ℚ, stabilityThreshold se = F64.fin t →
        (hasStablePowerReduction se now currentPower = true ↔
          (3 ≤ se.powerHistory.countP
              (fun m => decide (now - se.config.StabilityWindow < m.Timestamp)) ∧
            ∀ m ∈ se.powerHistory, now - se.config.StabilityWindow < m.Timestamp →
              m.Power ≤ t))) := by
  have main : hasStablePowerReduction se now currentPower = true ↔
      (3 ≤ se.powerHistory.countP (afterCutoff now se.config.StabilityWindow) ∧
        ∀ m ∈ se.powerHistory, afterCutoff now se.config.StabilityWindow m = true →
          F64.gt (F64.fin m.Power) (stabilityThreshold se) = false) := by
    have hdef : hasStablePowerReduction se now currentPower =
        (if (se.powerHistory.filter (afterCutoff now se.config.StabilityWindow)).length < 3
          then false
          else (se.powerHistory.filter (afterCutoff now se.config.StabilityWindow)).all
            (fun m => !F64.gt (F64.fin m.Power) (stabilityThreshold se))) := rfl
    rw [hdef, List.countP_eq_length_filter]
    by_cases h : (se.powerHistory.filter
        (afterCutoff now se.config.StabilityWindow)).length < 3
    · simp only [h, if_true, Bool.false_eq_true, false_iff, not_and]
      intro h3
      omega
    · simp only [h, if_false, List.all_eq_true, List.mem_filter, Bool.not_eq_true', and_imp]
      constructor
      · intro hall
        exact ⟨by omega, hall⟩
      · intro hall
        exact hall.2
  refine ⟨main, fun hne t ht => ?_⟩
  have hcut : afterCutoff now se.config.StabilityWindow =
      fun m => decide (now - se.config.StabilityWindow < m.Timestamp) :=
    funext (fun m => afterCutoff_of_ne now _ m hne)
  rw [main, hcut, ht]
  simp only [F64.gt, F64.lt, decide_eq_true_eq, decide_eq_false_iff_not, not_lt]

/-- C7 on `TestSpeedEstimator_SocEstimation`: after the readings of 4000 W the
last four entries lie in the window of 1 min, all at most the threshold of
4250 W, and the reduction is stable. -/
theorem C7_hasStablePowerReduction_iff_witness :
    hasStablePowerReduction socTestState (mockStart + 2 * Minute + 80 * Second) 4000 = true :=
  ((C7_hasStablePowerReduction_iff socTestState (mockStart + 2 * Minute + 80 * Second)
    4000).2 (by decide!) 4250 (by decide!)).2 (by decide!)

/-- C8: a call that comes less than `sampleInterval` after a set `lastSample`
leaves the whole estimator unchanged; every other call on an enabled estimator
sets `lastSample = now` and leaves as history the old history with the
measurement `(now, power)` appended, pruned.  The distance is
`now.Sub(lastSample)`, Go's saturating difference; for every interval that a
`time.Duration` holds, the least one apart, it compares as `now - lastSample`. -/
theorem C8_rate_limit (se : SpeedEstimator) (power : ℚ) (now : Time) :
    (Time.IsZero se.lastSample = false →
      Time.Sub now se.lastSample < se.config.SampleInterval →
      UpdatePower se power now = se) ∧
    (se.config.Enabled = true →
      ¬ (Time.IsZero se.lastSample = false ∧
        Time.Sub now se.lastSample < se.config.SampleInterval) →
      (UpdatePower se power now).lastSample = now ∧
      (UpdatePower se power now).powerHistory =
        (cleanOldMeasurements
          { se with powerHistory := se.powerHistory ++ [⟨now, power⟩] } now).powerHistory) ∧
    (minDuration < se.config.SampleInterval → se.config.SampleInterval ≤ maxDuration →
      (Time.Sub now se.lastSample < se.config.SampleInterval ↔
        now - se.lastSample < se.config.SampleInterval)) := by
  refine ⟨?_, ?_, fun h1 h2 => Time.Sub_lt_iff now se.lastSample _ h1 h2⟩
  · intro h1 h2
    exact UpdatePower_rejected se power now ((sampleAccepted_eq_false se now).2 ⟨h1, h2⟩)
  · intro hen h
    have hacc : sampleAccepted se now = true := by
      cases hs : sampleAccepted se now
      · exact absurd ((sampleAccepted_eq_false se now).1 hs) h
      · rfl
    refine ⟨UpdatePower_lastSample se power now hen hacc, ?_⟩
    rw [UpdatePower_powerHistory se power now hen hacc, cleanOldMeasurements_powerHistory]

/-- C8 on `TestSpeedEstimator_UpdatePowerSampling`-like calls after the target
session: a call one second after the last sample is recorded (interval 1 s),
and a call at the very instant of the last sample is dropped. -/
theorem C8_rate_limit_witness :
    UpdatePower socTestReached 4500 (mockStart + 2 * Minute + 102 * Second) = socTestReached ∧
      (UpdatePower socTestReached 4500 (mockStart + 2 * Minute + 103 * Second)).lastSample =
        mockStart + 2 * Minute + 103 * Second :=
  ⟨(C8_rate_limit socTestReached 4500 (mockStart + 2 * Minute + 102 * Second)).1
      (by decide!) (by decide!),
    ((C8_rate_limit socTestReached 4500 (mockStart + 2 * Minute + 103 * Second)).2.1
      (by decide!) (by decide!)).1⟩

/-- C9 as stated fails, in three ways.  In `TestSpeedEstimator_UpdatePowerSampling`
(interval 30 s) the calls at 0 s, 10 s and 35 s each come less than 30 s after
the previous call, yet the third is recorded and the count is 2: the limit runs
from the last accepted sample.  With `historyRetention = 0` the first call is
pruned at once and the count is 0.  A first call at the zero instant leaves
`lastSample` unset, so the next call is recorded whatever its distance. -/
theorem C9_counterexample :
    ((mockStart + 10 * Second) - mockStart < samplingTestConfig.SampleInterval ∧
      (mockStart + 35 * Second) - (mockStart + 10 * Second) < samplingTestConfig.SampleInterval ∧
      (run (StartCharging (NewSpeedEstimator samplingTestConfig) mockStart)
        [ Op.update 5000 mockStart,
          Op.update 4500 (mockStart + 10 * Second),
          Op.update 4500 (mockStart + 35 * Second) ]).powerHistory.length = 2) ∧
    ((mockStart + 10 * Second) - mockStart < samplingTestConfig.SampleInterval ∧
      (run (StartCharging
          (NewSpeedEstimator { samplingTestConfig with HistoryRetention := 0 }) mockStart)
        [ Op.update 5000 mockStart,
          Op.update 4500 (mockStart + 10 * Second) ]).powerHistory.length = 0) ∧
    ((10 * Second : Time) - 0 < samplingTestConfig.SampleInterval ∧
      (run (StartCharging (NewSpeedEstimator samplingTestConfig) 0)
        [ Op.update 5000 0,
          Op.update 4500 (10 * Second) ]).powerHistory.length = 2) := by
  decide!

/-- C9, amended: after `StartCharging` on an enabled estimator, a first call of
`UpdatePower` at a non-zero clock reading `t0` followed by calls that each come
less than `sampleInterval` after `t0` leaves the estimator as the first call
left it; with `historyRetention > 0` the history is the first measurement
alone, so the count stays 1 for the whole cluster.  The distance of a call at
`t` is `t.Sub(t0)`, Go's saturating difference, which is below the interval
whenever `t - t0` is (`Time.Sub_lt_iff`, for an interval that a `time.Duration`
holds, the least one apart). -/
theorem C9_cluster_keeps_first (se : SpeedEstimator) (start : Time) (p0 : ℚ) (t0 : Time)
    (rest : List (ℚ × Time))
    (hen : se.config.Enabled = true) (ht0 : Time.IsZero t0 = false)
    (hclose : ∀ c ∈ rest, Time.Sub c.2 t0 < se.config.SampleInterval) :
    run (StartCharging se start) (Op.update p0 t0 :: rest.map (fun c => Op.update c.1 c.2)) =
        UpdatePower (StartCharging se start) p0 t0 ∧
    (se.config.HistoryRetention > 0 →
      (run (StartCharging se start)
        (Op.update p0 t0 :: rest.map (fun c => Op.update c.1 c.2))).powerHistory =
          [⟨t0, p0⟩]) := by
  have hen0 : (StartCharging se start).config.Enabled = true := hen
  have hacc0 : sampleAccepted (StartCharging se start) t0 = true := by
    simp [sampleAccepted, StartCharging, Time.IsZero]
  have hlast := UpdatePower_lastSample (StartCharging se start) p0 t0 hen0 hacc0
  have hcfg : (UpdatePower (StartCharging se start) p0 t0).config = se.config := by
    rw [UpdatePower_accepted _ p0 t0 hen0 hacc0]
    obtain ⟨hc, -⟩ := activate_frame (afterMaxPower (StartCharging se start) p0 t0) p0 t0
    obtain ⟨hc2, -⟩ := afterMaxPower_frame (StartCharging se start) p0 t0
    split
    · rw [(updateSocEstimation_frame _ p0).1, hc, hc2]; rfl
    · rw [hc, hc2]; rfl
  have hrun : ∀ (l : List (ℚ × Time)),
      (∀ c ∈ l, Time.Sub c.2 t0 < se.config.SampleInterval) →
      List.foldl step (UpdatePower (StartCharging se start) p0 t0)
        (l.map (fun c => Op.update c.1 c.2)) = UpdatePower (StartCharging se start) p0 t0 := by
    intro l
    induction l with
    | nil => intro _; rfl
    | cons c l ih =>
      intro hl
      have hc := hl c (List.mem_cons_self c l)
      have hrej : sampleAccepted (UpdatePower (StartCharging se start) p0 t0) c.2 = false := by
        rw [sampleAccepted_eq_false, hlast, hcfg]
        exact ⟨ht0, hc⟩
      simp only [List.map_cons, List.foldl_cons, step]
      rw [UpdatePower_rejected _ c.1 c.2 hrej]
      exact ih (fun d hd => hl d (List.mem_cons_of_mem c hd))
  have hmain : run (StartCharging se start)
      (Op.update p0 t0 :: rest.map (fun c => Op.update c.1 c.2)) =
        UpdatePower (StartCharging se start) p0 t0 := by
    simp only [run, List.foldl_cons, step]
    exact hrun rest hclose
  refine ⟨hmain, fun hret => ?_⟩
  rw [hmain, UpdatePower_powerHistory _ p0 t0 hen0 hacc0]
  have hkeep : t0 - se.config.HistoryRetention < t0 := by linarith
  have hne : se.config.HistoryRetention ≠ minDuration :=
    ne_minDuration_of_nonneg _ (le_of_lt hret)
  simp [StartCharging, afterCutoff_of_ne _ _ _ hne, hkeep]

/-- C9 on `TestSpeedEstimator_UpdatePowerSampling` (interval 30 s): after the
calls at 0 s and 10 s the history holds the first measurement alone. -/
theorem C9_cluster_keeps_first_witness :
    (run (StartCharging (NewSpeedEstimator samplingTestConfig) mockStart)
      [Op.update 5000 mockStart, Op.update 4500 (mockStart + 10 * Second)]).powerHistory =
        [⟨mockStart, 5000⟩] :=
  (C9_cluster_keeps_first (NewSpeedEstimator samplingTestConfig) mockStart 5000 mockStart
    [(4500, mockStart + 10 * Second)] (by decide!)
    (by decide!) (by decide!)).2
    (by decide!)

/-- C10 as stated fails, in two ways.  With `historyRetention` the least
`time.Duration` (`math.MinInt64`, which is `≤ 0`) the negation in
`cleanOldMeasurements` wraps around, the cutoff lies 292 years back and both
samples are kept, the one just appended included.  And the pruning step reads
the clock again: with retention 10 min, a call at 10 min less 1 ns after the
first sample whose pruning step reads the clock 1 ns later drops that sample,
although its timestamp is after `now - historyRetention`. -/
theorem C10_counterexample :
    ((run (NewSpeedEstimator { cleanupTestConfig with HistoryRetention := minDuration })
        [Op.start mockStart, Op.update 5000 mockStart]).config.Enabled = true ∧
      sampleAccepted
        (run (NewSpeedEstimator { cleanupTestConfig with HistoryRetention := minDuration })
          [Op.start mockStart, Op.update 5000 mockStart]) (mockStart + 1 * Minute) = true ∧
      minDuration ≤ 0 ∧
      (UpdatePower
        (run (NewSpeedEstimator { cleanupTestConfig with HistoryRetention := minDuration })
          [Op.start mockStart, Op.update 5000 mockStart]) 5000
        (mockStart + 1 * Minute)).powerHistory =
        [⟨mockStart, 5000⟩, ⟨mockStart + 1 * Minute, 5000⟩]) ∧
    (cleanupTestState.config.Enabled = true ∧
      sampleAccepted cleanupTestState (mockStart + 10 * Minute - 1) = true ∧
      cleanupTestState.powerHistory =
        [⟨mockStart, 5000⟩, ⟨mockStart + 1 * Minute, 5000⟩] ∧
      mockStart > (mockStart + 10 * Minute - 1) - cleanupTestState.config.HistoryRetention ∧
      (UpdatePowerAt cleanupTestState 5000 (mockStart + 10 * Minute - 1)
        (mockStart + 10 * Minute)).powerHistory =
        [⟨mockStart + 1 * Minute, 5000⟩, ⟨mockStart + 10 * Minute - 1, 5000⟩]) := by
  decide!

/-- C10, amended: after an accepted `UpdatePower` at `now`, whose pruning step
reads the clock at `cleanNow`, the history is exactly the entries of the old
history followed by the new sample whose timestamp is after
`cleanNow.Add(-historyRetention)`, in their order.  Unless `historyRetention` is
the least `time.Duration`, that cutoff is `cleanNow - historyRetention`: no
entry at or before it is left, no later entry is lost, and with
`historyRetention ≤ 0` and `now ≤ cleanNow` the sample just appended is removed
as well. -/
theorem C10_pruning_exact (se : SpeedEstimator) (power : ℚ) (now cleanNow : Time)
    (hen : se.config.Enabled = true) (hacc : sampleAccepted se now = true) :
    (UpdatePowerAt se power now cleanNow).powerHistory =
        (se.powerHistory ++ [(⟨now, power⟩ : PowerMeasurement)]).filter
          (fun m => Time.After m.Timestamp
            (Time.Add cleanNow (Duration.neg se.config.HistoryRetention))) ∧
    (UpdatePowerAt se power now cleanNow).powerHistory.Sublist
        (se.powerHistory ++ [(⟨now, power⟩ : PowerMeasurement)]) ∧
    (se.config.HistoryRetention ≠ minDuration →
      (UpdatePowerAt se power now cleanNow).powerHistory =
          (se.powerHistory ++ [(⟨now, power⟩ : PowerMeasurement)]).filter
            (fun m => decide (m.Timestamp > cleanNow - se.config.HistoryRetention)) ∧
      (∀ m ∈ (UpdatePowerAt se power now cleanNow).powerHistory,
          ¬ m.Timestamp ≤ cleanNow - se.config.HistoryRetention) ∧
      (∀ m ∈ se.powerHistory ++ [(⟨now, power⟩ : PowerMeasurement)],
          m.Timestamp > cleanNow - se.config.HistoryRetention →
          m ∈ (UpdatePowerAt se power now cleanNow).powerHistory) ∧
      (se.config.HistoryRetention ≤ 0 → now ≤ cleanNow →
          (⟨now, power⟩ : PowerMeasurement) ∉
            (UpdatePowerAt se power now cleanNow).powerHistory)) := by
  have hH := UpdatePowerAt_powerHistory se power now cleanNow hen hacc
  refine ⟨hH, ?_, fun hne => ?_⟩
  · rw [hH]
    exact List.filter_sublist _
  · have hcut : ∀ m : PowerMeasurement,
        afterCutoff cleanNow se.config.HistoryRetention m =
          decide (m.Timestamp > cleanNow - se.config.HistoryRetention) :=
      fun m => afterCutoff_of_ne cleanNow _ m hne
    have hH2 : (UpdatePowerAt se power now cleanNow).powerHistory =
        (se.powerHistory ++ [(⟨now, power⟩ : PowerMeasurement)]).filter
          (fun m => decide (m.Timestamp > cleanNow - se.config.HistoryRetention)) := by
      rw [hH]
      exact List.filter_congr (fun m _ => hcut m)
    refine ⟨hH2, ?_, ?_, ?_⟩
    · intro m hm
      rw [hH2, List.mem_filter] at hm
      have := hm.2
      simp only [decide_eq_true_eq] at this
      exact not_le.mpr this
    · intro m hm hgt
      rw [hH2, List.mem_filter]
      exact ⟨hm, by simpa using hgt⟩
    · intro hret hclock hm
      rw [hH2, List.mem_filter] at hm
      have := hm.2
      simp only [decide_eq_true_eq, gt_iff_lt] at this
      linarith

/-- C10 on `TestSpeedEstimator_HistoryCleanup` (retention 10 min, mock clock):
the call made 10 min after the first sample drops that sample and keeps the
other two. -/
theorem C10_pruning_exact_witness :
    (UpdatePowerAt cleanupTestState 5000 (mockStart + 10 * Minute)
      (mockStart + 10 * Minute)).powerHistory =
      [⟨mockStart + 1 * Minute, 5000⟩, ⟨mockStart + 10 * Minute, 5000⟩] := by
  rw [((C10_pruning_exact cleanupTestState 5000 (mockStart + 10 * Minute)
    (mockStart + 10 * Minute) (by decide!) (by decide!)).2.2 (by decide!)).1]
  decide!

/-- C11: in a session (`StartCharging`, then `UpdatePower` calls) whose
consecutive accepted samples are at least `d > 0` apart, with
`historyRetention = R ≥ 0`, the history holds at most `⌊R / d⌋ + 1`
measurements after every call. -/
theorem C11_history_bound (se : SpeedEstimator) (start : Time) (calls : List (ℚ × Time))
    (d : Duration) (hd : 0 < d) (hR : 0 ≤ se.config.HistoryRetention)
    (hsp : spacedFrom d (StartCharging se start) none calls = true) (n : Nat) :
    ((run (StartCharging se start)
        ((calls.take n).map (fun c => Op.update c.1 c.2))).powerHistory.length : Int) ≤
      se.config.HistoryRetention / d + 1 := by
  have h0 : WindowInv d (StartCharging se start) none := by
    refine ⟨?_, ?_⟩
    · simp [StartCharging]
    · intro m hm
      simp [StartCharging] at hm
  obtain ⟨prev2, hw, hc⟩ := WindowInv_calls d hd (calls.take n) (StartCharging se start) none
    hR h0 (spacedFrom_take d calls n _ _ hsp)
  have hcfg : (List.foldl step (StartCharging se start)
      ((calls.take n).map (fun c => Op.update c.1 c.2))).config = se.config := hc
  have := WindowInv_length_le d _ prev2 hd (by rw [hcfg]; exact hR) hw
  rw [hcfg] at this
  exact this

/-- C11 on `TestSpeedEstimator_HistoryCleanup`: retention 10 min, 20 readings
one minute apart, at most 11 measurements retained. -/
theorem C11_history_bound_witness :
    ((run (StartCharging (NewSpeedEstimator cleanupTestConfig) mockStart)
        ((cleanupTestCalls.take 20).map (fun c => Op.update c.1 c.2))).powerHistory.length :
          Int) ≤ 11 :=
  le_trans
    (C11_history_bound (NewSpeedEstimator cleanupTestConfig) mockStart cleanupTestCalls Minute
      (by decide) (by decide!) (by decide!) 20)
    (by decide!)

/-- C12: `UpdatePower` never lowers `maxPower`; after the call the maximum is
the old one or the power of the call, and a reading not above the old maximum
leaves `maxPower` and `maxPowerTime` untouched. -/
theorem C12_maxPower_monotone (se : SpeedEstimator) (power : ℚ) (now : Time) :
    se.maxPower ≤ (UpdatePower se power now).maxPower ∧
    ((UpdatePower se power now).maxPower = se.maxPower ∨
      (UpdatePower se power now).maxPower = power) ∧
    (power ≤ se.maxPower →
      (UpdatePower se power now).maxPower = se.maxPower ∧
      (UpdatePower se power now).maxPowerTime = se.maxPowerTime) := by
  cases hen : se.config.Enabled
  · rw [UpdatePower_disabled se power now hen]
    exact ⟨le_refl _, Or.inl rfl, fun _ => ⟨rfl, rfl⟩⟩
  · cases hacc : sampleAccepted se now
    · rw [UpdatePower_rejected se power now hacc]
      exact ⟨le_refl _, Or.inl rfl, fun _ => ⟨rfl, rfl⟩⟩
    · obtain ⟨h1, h2⟩ := UpdatePower_maxPower se power now hen hacc
      obtain ⟨h3, h4⟩ := afterMaxPower_maxPower se power now
      rw [h1, h2, h3, h4]
      refine ⟨?_, ?_, fun hle => ?_⟩
      · split
        · rename_i h
          exact le_of_lt h.1
        · exact le_refl _
      · split
        · exact Or.inr rfl
        · exact Or.inl rfl
      · have hcond : ¬ (power > se.maxPower ∧
            (se.maxPowerTime = 0 ∨
              Time.Sub now se.chargingStarted ≤ se.config.MaxPowerWindow)) :=
          fun h => absurd h.1 (not_lt.mpr hle)
        rw [if_neg hcond, if_neg hcond]
        exact ⟨rfl, rfl⟩

/-- C12 on `TestSpeedEstimator_MaxPowerTracking`: after 3000 W and 5000 W the
reading of 4000 W was taken; a further reading of 4000 W leaves the maximum at
5000 W. -/
theorem C12_maxPower_monotone_witness :
    (UpdatePower maxPowerTestState 4000 (mockStart + 6 * Second)).maxPower = 5000 := by
  rw [((C12_maxPower_monotone maxPowerTestState 4000 (mockStart + 6 * Second)).2.2
    (by decide!)).1]
  decide!

/-- C13: on a disabled estimator `UpdatePower` returns the estimator unchanged;
so after `StartCharging` any sequence of `UpdatePower` calls leaves the state of
`StartCharging`: empty history, `maxPower = 0`, estimation inactive. -/
theorem C13_disabled_noop (se : SpeedEstimator) (hdis : se.config.Enabled = false) :
    (∀ (power : ℚ) (now : Time), UpdatePower se power now = se) ∧
    (∀ (start : Time) (calls : List (ℚ × Time)),
      run (StartCharging se start) (calls.map (fun c => Op.update c.1 c.2)) =
          StartCharging se start ∧
      (run (StartCharging se start) (calls.map (fun c => Op.update c.1 c.2))).powerHistory =
          [] ∧
      (run (StartCharging se start) (calls.map (fun c => Op.update c.1 c.2))).maxPower = 0 ∧
      (run (StartCharging se start)
        (calls.map (fun c => Op.update c.1 c.2))).estimationActive = false) := by
  refine ⟨fun power now => UpdatePower_disabled se power now hdis, fun start calls => ?_⟩
  have hrun : run (StartCharging se start) (calls.map (fun c => Op.update c.1 c.2)) =
      StartCharging se start := by
    unfold run
    induction calls with
    | nil => rfl
    | cons c l ih =>
      simp only [List.map_cons, List.foldl_cons, step]
      rw [UpdatePower_disabled (StartCharging se start) c.1 c.2 hdis]
      exact ih
  rw [hrun]
  exact ⟨rfl, rfl, rfl, rfl⟩

/-- C13 on `TestSpeedEstimator_UpdatePowerDisabled`: the default configuration
is disabled, and a reading of 5000 W after `StartCharging` changes nothing. -/
theorem C13_disabled_noop_witness :
    UpdatePower (StartCharging (NewSpeedEstimator DefaultChargingSpeedConfig) mockStart) 5000
        mockStart =
      StartCharging (NewSpeedEstimator DefaultChargingSpeedConfig) mockStart :=
  (C13_disabled_noop (StartCharging (NewSpeedEstimator DefaultChargingSpeedConfig) mockStart)
    (by decide!)).1 5000 mockStart

/-- C14: `StartCharging` at `now` keeps the configuration and sets every field
of the session: empty history, `maxPower = 0`, `maxPowerTime` unset, estimation
inactive, `estimatedSoc = 0`, target not reached, `lastSample` unset,
`chargingStarted = now`; the same after `StopCharging`, and the same for any two
estimators with one configuration. -/
theorem C14_startCharging_reset (se : SpeedEstimator) (now : Time) :
    StartCharging se now =
        { config := se.config
          powerHistory := []
          maxPower := 0
          maxPowerTime := 0
          chargingStarted := now
          estimationActive := false
          estimatedSoc := F64.fin 0
          targetReached := false
          lastSample := 0 } ∧
    Time.IsZero (StartCharging se now).maxPowerTime = true ∧
    Time.IsZero (StartCharging se now).lastSample = true ∧
    StartCharging (StopCharging se) now = StartCharging se now ∧
    (∀ other : SpeedEstimator, other.config = se.config →
      StartCharging other now = StartCharging se now) := by
  refine ⟨rfl, rfl, rfl, rfl, fun other h => ?_⟩
  simp [StartCharging, h]

/-- C14 after the session of `TestSpeedEstimator_SocEstimation`: a new
`StartCharging` gives the state of a `StartCharging` on a fresh estimator. -/
theorem C14_startCharging_reset_witness :
    StartCharging socTestReached (mockStart + 1 * Hour) =
      StartCharging (NewSpeedEstimator socTestConfig) (mockStart + 1 * Hour) :=
  (C14_startCharging_reset (NewSpeedEstimator socTestConfig) (mockStart + 1 * Hour)).2.2.2.2
    socTestReached (by decide!)

/-- C15: `StopCharging` clears `estimationActive` and `targetReached` and keeps
the history, `maxPower`, `maxPowerTime`, `chargingStarted`, `lastSample`,
`estimatedSoc` and the configuration. -/
theorem C15_stopCharging_frame (se : SpeedEstimator) :
    (StopCharging se).estimationActive = false ∧
    (StopCharging se).targetReached = false ∧
    (StopCharging se).powerHistory = se.powerHistory ∧
    (StopCharging se).maxPower = se.maxPower ∧
    (StopCharging se).maxPowerTime = se.maxPowerTime ∧
    (StopCharging se).chargingStarted = se.chargingStarted ∧
    (StopCharging se).lastSample = se.lastSample ∧
    (StopCharging se).estimatedSoc = se.estimatedSoc ∧
    (StopCharging se).config = se.config :=
  ⟨rfl, rfl, rfl, rfl, rfl, rfl, rfl, rfl, rfl⟩

/-- C16: `NewSpeedEstimator` stores `DefaultChargingSpeedConfig()` exactly when
the sample interval supplied is 0, whatever the other fields, and the supplied
configuration otherwise; the defaults are: disabled, target SoC 80, max-power
window 10 min, reduction threshold 0.15, minimum charging time 15 min, sample
interval 30 s, history retention 2 h, stability window 5 min, minimum
estimation power 1000 W; the new estimator is inactive, with the target not
reached and `estimatedSoc = 0`. -/
theorem C16_newSpeedEstimator_defaults (config : ChargingSpeedConfig) :
    (config.SampleInterval = 0 →
      (NewSpeedEstimator config).config = DefaultChargingSpeedConfig) ∧
    (config.SampleInterval ≠ 0 → (NewSpeedEstimator config).config = config) ∧
    DefaultChargingSpeedConfig =
        { Enabled := false
          TargetSoc := 80
          MaxPowerWindow := 10 * (60 * 1000000000)
          ReductionThreshold := 15 / 100
          MinChargingTime := 15 * (60 * 1000000000)
          SampleInterval := 30 * 1000000000
          HistoryRetention := 2 * (60 * (60 * 1000000000))
          StabilityWindow := 5 * (60 * 1000000000)
          MinPowerForEstimation := 1000 } ∧
    (NewSpeedEstimator config).estimationActive = false ∧
    (NewSpeedEstimator config).targetReached = false ∧
    (NewSpeedEstimator config).estimatedSoc = F64.fin 0 := by
  refine ⟨fun h => ?_, fun h => ?_, rfl, rfl, rfl, rfl⟩
  · simp [NewSpeedEstimator, h]
  · simp [NewSpeedEstimator, h]

/-- C16 on a configuration that only sets `enabled` and a target of 90: the
sample interval is unset, so the defaults replace it, `enabled` included. -/
theorem C16_newSpeedEstimator_defaults_witness :
    (NewSpeedEstimator
      { Enabled := true, TargetSoc := 90, MaxPowerWindow := 0, ReductionThreshold := 0,
        MinChargingTime := 0, SampleInterval := 0, HistoryRetention := 0,
        StabilityWindow := 0, MinPowerForEstimation := 0 }).config =
      DefaultChargingSpeedConfig :=
  (C16_newSpeedEstimator_defaults
    { Enabled := true, TargetSoc := 90, MaxPowerWindow := 0, ReductionThreshold := 0,
      MinChargingTime := 0, SampleInterval := 0, HistoryRetention := 0,
      StabilityWindow := 0, MinPowerForEstimation := 0 }).1 rfl

/-- C17, the calls that break it: on the default configuration with
`minPowerForEstimation = 0`, the first reading of 0 W, taken 15 min after
`StartCharging`, passes the checks `now - chargingStarted >= minChargingTime` and
`maxPower >= minPowerForEstimation` of `canStartEstimation` with `maxPower = 0`,
so the quotient is computed with a zero divisor; after two more such readings
estimation is active and `updateSocEstimation` divides by `maxPower = 0` too. -/
theorem C17_division_by_zero_maxPower :
    (StartCharging (NewSpeedEstimator zeroMinPowerConfig) mockStart).config.Enabled = true ∧
    sampleAccepted (StartCharging (NewSpeedEstimator zeroMinPowerConfig) mockStart)
      (mockStart + 15 * Minute) = true ∧
    (afterMaxPower (StartCharging (NewSpeedEstimator zeroMinPowerConfig) mockStart) 0
      (mockStart + 15 * Minute)).estimationActive = false ∧
    computesPowerReduction
      (afterMaxPower (StartCharging (NewSpeedEstimator zeroMinPowerConfig) mockStart) 0
        (mockStart + 15 * Minute)) (mockStart + 15 * Minute) = true ∧
    (afterMaxPower (StartCharging (NewSpeedEstimator zeroMinPowerConfig) mockStart) 0
      (mockStart + 15 * Minute)).maxPower = 0 ∧
    sampleAccepted zeroPowerState (mockStart + 16 * Minute) = true ∧
    (activate (afterMaxPower zeroPowerState 0 (mockStart + 16 * Minute)) 0
      (mockStart + 16 * Minute)).estimationActive = true ∧
    (activate (afterMaxPower zeroPowerState 0 (mockStart + 16 * Minute)) 0
      (mockStart + 16 * Minute)).maxPower = 0 := by
  decide!

/-- C19 as stated fails at the zero instant, which `UpdatePower` reads as
"`lastSample` unset": after a sample taken when the clock reads the zero
instant, a call 10 s earlier (interval 30 s) is recorded behind it, so the
history is not ascending; a call 10 s later is recorded too, 10 s after its
predecessor. -/
theorem C19_counterexample :
    samplingTestConfig.Enabled = true ∧ 0 < samplingTestConfig.SampleInterval ∧
    (run (NewSpeedEstimator samplingTestConfig)
      [Op.start 0, Op.update 5000 0, Op.update 4500 (-(10 * Second))]).powerHistory =
        [⟨0, 5000⟩, ⟨-(10 * Second), 4500⟩] ∧
    (run (NewSpeedEstimator samplingTestConfig)
      [Op.start 0, Op.update 5000 0, Op.update 4500 (10 * Second)]).powerHistory =
        [⟨0, 5000⟩, ⟨10 * Second, 4500⟩] := by
  decide!

/-- C19, amended: in every state reached from `NewSpeedEstimator` with
`sampleInterval > 0` by calls whose `UpdatePower` clock readings are never the
zero instant (enabled or not, the clock otherwise arbitrary), the timestamps of
the history are strictly ascending, consecutive entries are at least
`sampleInterval` apart, and a set `lastSample` is not before any entry. -/
theorem C19_history_ascending (config : ChargingSpeedConfig) (ops : List Op)
    (hI : 0 < config.SampleInterval) (hops : ∀ op ∈ ops, readingSet op = true) :
    (run (NewSpeedEstimator config) ops).powerHistory.Pairwise
        (fun a b => a.Timestamp < b.Timestamp) ∧
    (run (NewSpeedEstimator config) ops).powerHistory.Chain'
        (fun a b => a.Timestamp + config.SampleInterval ≤ b.Timestamp) ∧
    (Time.IsZero (run (NewSpeedEstimator config) ops).lastSample = false →
      ∀ m ∈ (run (NewSpeedEstimator config) ops).powerHistory,
        m.Timestamp ≤ (run (NewSpeedEstimator config) ops).lastSample) := by
  obtain ⟨-, hp, hl⟩ := SpacedInv_run config ops hI hops
  refine ⟨?_, List.Pairwise.chain' hp, fun _ m hm => (hl m hm).2⟩
  refine List.Pairwise.imp ?_ hp
  intro a b hab
  linarith

/-- C19 on `TestSpeedEstimator_SocEstimation` (interval 1 s): the six
measurements retained after the readings of 4000 W are at least 1 s apart. -/
theorem C19_history_ascending_witness :
    socTestState.powerHistory.Chain'
      (fun a b => a.Timestamp + socTestConfig.SampleInterval ≤ b.Timestamp) :=
  (C19_history_ascending socTestConfig socTestOps (by decide)
    (by decide!)).2.1

/-- C20: in every state reached from `NewSpeedEstimator`, an active estimation
has `maxPower >= minPowerForEstimation`; so with `minPowerForEstimation > 0` the
divisor `maxPower` is positive whenever an accepted `UpdatePower` runs
`updateSocEstimation`. -/
theorem C20_active_implies_minPower (config : ChargingSpeedConfig) (ops : List Op) :
    ((run (NewSpeedEstimator config) ops).estimationActive = true →
      (run (NewSpeedEstimator config) ops).config.MinPowerForEstimation ≤
        (run (NewSpeedEstimator config) ops).maxPower) ∧
    (∀ (power : ℚ) (now : Time),
      (run (NewSpeedEstimator config) ops).config.Enabled = true →
      sampleAccepted (run (NewSpeedEstimator config) ops) now = true →
      (activate (afterMaxPower (run (NewSpeedEstimator config) ops) power now) power
        now).estimationActive = true →
      0 < (run (NewSpeedEstimator config) ops).config.MinPowerForEstimation →
      0 < (activate (afterMaxPower (run (NewSpeedEstimator config) ops) power now) power
        now).maxPower) := by
  have hinv := ActiveInv_run config ops
  refine ⟨hinv, fun power now _ _ hact hpos => ?_⟩
  rw [(activate_frame _ power now).2.2.1]
  exact lt_of_lt_of_le hpos (minPower_le_of_active _ power now hinv hact)

/-- C20 on `TestSpeedEstimator_SocEstimation`: estimation is active after the
readings of 4000 W, and the maximum of 5000 W is above the minimum of 1000 W. -/
theorem C20_active_implies_minPower_witness :
    socTestState.config.MinPowerForEstimation ≤ socTestState.maxPower :=
  (C20_active_implies_minPower socTestConfig socTestOps).1 (by decide!)

/-- C21 as stated fails.  With the clock at the zero instant, a first reading of
1000 W leaves `maxPowerTime` at the zero instant, which the max-power step reads
as "no maximum yet": a reading of 2000 W eleven minutes later, outside the
window of 10 min, becomes the maximum, although the only sample accepted inside
the window has 1000 W.  And before the first positive sample the maximum of the
accepted powers can be negative while `maxPower` is 0: a first reading of
-100 W, followed inside the window by one of 5000 W. -/
theorem C21_counterexample :
    (maxPowerTestConfig.Enabled = true ∧
      List.Chain (fun a b => a ≤ b) (0 : Time)
        ([((1000 : ℚ), (0 : Time)), (2000, 11 * Minute)].map Prod.snd) ∧
      (acceptedSamples (StartCharging (NewSpeedEstimator maxPowerTestConfig) 0)
          [(1000, 0), (2000, 11 * Minute)]).filter
          (inWindow 0 maxPowerTestConfig.MaxPowerWindow) = [(1000, 0)] ∧
      (run (StartCharging (NewSpeedEstimator maxPowerTestConfig) 0)
        [Op.update 1000 0, Op.update 2000 (11 * Minute)]).maxPower = 2000) ∧
    ((acceptedSamples (StartCharging (NewSpeedEstimator maxPowerTestConfig) mockStart)
          [(-100, mockStart), (5000, mockStart + 2 * Second)]).filter
          (inWindow mockStart maxPowerTestConfig.MaxPowerWindow) =
        [(-100, mockStart), (5000, mockStart + 2 * Second)] ∧
      (run (StartCharging (NewSpeedEstimator maxPowerTestConfig) mockStart)
        [Op.update (-100) mockStart]).maxPower = 0) := by
  refine ⟨⟨by decide!, ?_, by decide!, by decide!⟩, by decide!, by decide!⟩
  exact List.Chain.cons (by decide!) (List.Chain.cons (by decide!) List.Chain.nil)

/-- C21, amended: in a session (`StartCharging` at `start` on an enabled
estimator, then `UpdatePower` calls) under a non-decreasing clock that never
reads the zero instant, once a sample accepted inside the max-power window has
had a positive power, `maxPower` is the maximum of the powers of the samples
accepted so far inside the window and `maxPowerTime` is the time of the first
sample attaining it. -/
theorem C21_maxPower_is_window_peak (se : SpeedEstimator) (start : Time)
    (calls : List (ℚ × Time))
    (hen : se.config.Enabled = true)
    (hclock : List.Chain (fun a b => a ≤ b) start (calls.map Prod.snd))
    (hset : ∀ c ∈ calls, Time.IsZero c.2 = false)
    (hpos : ∃ c ∈ (acceptedSamples (StartCharging se start) calls).filter
      (inWindow start se.config.MaxPowerWindow), 0 < c.1) :
    IsFirstPeak
        ((acceptedSamples (StartCharging se start) calls).filter
          (inWindow start se.config.MaxPowerWindow))
        (run (StartCharging se start) (calls.map (fun c => Op.update c.1 c.2))).maxPower
        (run (StartCharging se start) (calls.map (fun c => Op.update c.1 c.2))).maxPowerTime ∧
    (∀ c ∈ (acceptedSamples (StartCharging se start) calls).filter
        (inWindow start se.config.MaxPowerWindow),
      c.1 ≤ (run (StartCharging se start)
        (calls.map (fun c => Op.update c.1 c.2))).maxPower) := by
  have h0 : PeakInv start se.config.MaxPowerWindow start (StartCharging se start) [] :=
    Or.inl ⟨fun c hc => absurd hc (List.not_mem_nil c), Or.inl ⟨rfl, rfl⟩⟩
  obtain ⟨lo2, h⟩ := PeakInv_calls start se.config.MaxPowerWindow calls (StartCharging se start)
    start [] hen rfl rfl hclock hset h0
  rw [List.nil_append] at h
  have hpk : IsFirstPeak
      ((acceptedSamples (StartCharging se start) calls).filter
        (inWindow start se.config.MaxPowerWindow))
      (run (StartCharging se start) (calls.map (fun c => Op.update c.1 c.2))).maxPower
      (run (StartCharging se start) (calls.map (fun c => Op.update c.1 c.2))).maxPowerTime := by
    rcases h with ⟨hA, -⟩ | ⟨-, -, hpk⟩
    · obtain ⟨c, hc, hc0⟩ := hpos
      exact absurd hc0 (not_lt.mpr (hA c hc))
    · exact hpk
  refine ⟨hpk, ?_⟩
  obtain ⟨l1, l2, hl, hl1, hl2⟩ := hpk
  intro c hc
  rw [hl, List.mem_append, List.mem_cons] at hc
  rcases hc with hc | hc | hc
  · exact le_of_lt (hl1 c hc)
  · rw [hc]
  · exact hl2 c hc

/-- C21 on `TestSpeedEstimator_MaxPowerTracking`: the readings 3000 W, 5000 W
and 4000 W are taken inside the window, 6000 W after it; the recorded maximum
is 5000 W, at the time of the second reading. -/
theorem C21_maxPower_is_window_peak_witness :
    IsFirstPeak
      [(3000, mockStart), (5000, mockStart + 2 * Second), (4000, mockStart + 4 * Second)]
      5000 (mockStart + 2 * Second) := by
  have h := (C21_maxPower_is_window_peak (NewSpeedEstimator maxPowerTestConfig) mockStart
    maxPowerTestCalls (by decide!)
    (List.Chain.cons (by decide!) (List.Chain.cons (by decide!)
      (List.Chain.cons (by decide!) (List.Chain.cons (by decide!) List.Chain.nil))))
    (by decide!)
    ⟨(3000, mockStart), by decide!, by norm_num⟩).1
  have e1 : (acceptedSamples (StartCharging (NewSpeedEstimator maxPowerTestConfig) mockStart)
      maxPowerTestCalls).filter
      (inWindow mockStart (NewSpeedEstimator maxPowerTestConfig).config.MaxPowerWindow) =
      [(3000, mockStart), (5000, mockStart + 2 * Second), (4000, mockStart + 4 * Second)] := by
    decide!
  have e2 : (run (StartCharging (NewSpeedEstimator maxPowerTestConfig) mockStart)
      (maxPowerTestCalls.map (fun c => Op.update c.1 c.2))).maxPower = 5000 := by
    decide!
  have e3 : (run (StartCharging (NewSpeedEstimator maxPowerTestConfig) mockStart)
      (maxPowerTestCalls.map (fun c => Op.update c.1 c.2))).maxPowerTime =
      mockStart + 2 * Second := by
    decide!
  rw [e1, e2, e3] at h
  exact h

/-- C22: `StopCharging` does not hold the estimator idle.  The state with the
target reached of `TestSpeedEstimator_SocEstimation` is reached from
`NewSpeedEstimator`; `StopCharging` clears both flags but keeps
`chargingStarted`, `maxPower` and the history, and a single accepted
`UpdatePower` (3000 W one second later), with no `StartCharging` in between,
sets `estimationActive` and `targetReached` again. -/
theorem C22_stop_does_not_idle :
    ∃ (config : ChargingSpeedConfig) (ops : List Op) (power : ℚ) (now : Time),
      (run (NewSpeedEstimator config) ops).targetReached = true ∧
      (StopCharging (run (NewSpeedEstimator config) ops)).estimationActive = false ∧
      (StopCharging (run (NewSpeedEstimator config) ops)).targetReached = false ∧
      (StopCharging (run (NewSpeedEstimator config) ops)).chargingStarted =
        (run (NewSpeedEstimator config) ops).chargingStarted ∧
      (StopCharging (run (NewSpeedEstimator config) ops)).maxPower =
        (run (NewSpeedEstimator config) ops).maxPower ∧
      (StopCharging (run (NewSpeedEstimator config) ops)).powerHistory =
        (run (NewSpeedEstimator config) ops).powerHistory ∧
      (StopCharging (run (NewSpeedEstimator config) ops)).config.Enabled = true ∧
      sampleAccepted (StopCharging (run (NewSpeedEstimator config) ops)) now = true ∧
      (UpdatePower (StopCharging (run (NewSpeedEstimator config) ops)) power
        now).estimationActive = true ∧
      (UpdatePower (StopCharging (run (NewSpeedEstimator config) ops)) power
        now).targetReached = true :=
  ⟨socTestConfig,
    socTestOps ++
      [ Op.update 3500 (mockStart + 2 * Minute + 101 * Second),
        Op.update 3000 (mockStart + 2 * Minute + 102 * Second) ],
    3000, mockStart + 2 * Minute + 103 * Second, by decide!⟩

end Soc
